import Mathlib

/-!
Verification of the DNS protocol codec of the hermes DNS server
(`src/dns/protocol.rs`) against its natural-language specification.

Rust strings are modelled by their UTF-8 byte sequences (`List Nat`,
each entry < 256), machine integers by `Nat` with explicit `% 2^w`
where the code truncates.  The octet-buffer module (`PacketBuffer` /
`VectorPacketBuffer`) is not part of the given sources; it is modelled
from the specification, section 4.1.  Everything under the
`Hermes` namespace whose name matches a Rust item is a direct
translation of that item.
-/

namespace Hermes

/-- A Rust `String`, as its UTF-8 byte sequence. -/
abbrev RStr := List Nat

/-- Modelled from the spec: the growable octet buffer
(`VectorPacketBuffer`), a random-access octet store with a current
read/write position (spec 4.1). -/
structure VectorPacketBuffer where
  buffer : List Nat
  pos : Nat
deriving Repr, DecidableEq

def VectorPacketBuffer.new : VectorPacketBuffer := ⟨[], 0⟩

/-- Store byte `v` at index `i`, zero-extending the list when `i` is
past its end (growable buffer). -/
def setByte (l : List Nat) (i v : Nat) : List Nat :=
  if i < l.length then l.set i v
  else l ++ List.replicate (i - l.length) 0 ++ [v]

/-- Modelled from the spec: `write_u8` — store one octet at the cursor
and advance.  Writes on the growable buffer are total (spec 4.1). -/
def VectorPacketBuffer.write_u8 (b : VectorPacketBuffer) (v : Nat) : VectorPacketBuffer :=
  ⟨setByte b.buffer b.pos (v % 256), b.pos + 1⟩

/-- Modelled from the spec: `write_u16`, big-endian (spec 4.1). -/
def VectorPacketBuffer.write_u16 (b : VectorPacketBuffer) (v : Nat) : VectorPacketBuffer :=
  (b.write_u8 (v >>> 8)).write_u8 v

/-- Modelled from the spec: `write_u32`, big-endian (spec 4.1). -/
def VectorPacketBuffer.write_u32 (b : VectorPacketBuffer) (v : Nat) : VectorPacketBuffer :=
  (((b.write_u8 (v >>> 24)).write_u8 (v >>> 16)).write_u8 (v >>> 8)).write_u8 v

/-- Modelled from the spec: `set_u16(p, v)` — back-patch a u16 at an
earlier offset, leaving the cursor unchanged (spec 4.1). -/
def VectorPacketBuffer.set_u16 (b : VectorPacketBuffer) (p v : Nat) : VectorPacketBuffer :=
  ⟨setByte (setByte b.buffer p ((v >>> 8) % 256)) (p + 1) (v % 256), b.pos⟩

/-- Modelled from the spec: `read_u8` — reads past the end fail with
"end of buffer" (spec 4.1). -/
def VectorPacketBuffer.read_u8 (b : VectorPacketBuffer) : Except String (Nat × VectorPacketBuffer) :=
  match b.buffer[b.pos]? with
  | some v => .ok (v, ⟨b.buffer, b.pos + 1⟩)
  | none => .error "End of buffer"

/-- Modelled from the spec: `read_u16`, big-endian (spec 4.1). -/
def VectorPacketBuffer.read_u16 (b : VectorPacketBuffer) : Except String (Nat × VectorPacketBuffer) := do
  let (hi, bf) ← b.read_u8
  let (lo, bf) ← bf.read_u8
  pure ((hi <<< 8) ||| lo, bf)

/-- Modelled from the spec: `read_u32`, big-endian (spec 4.1). -/
def VectorPacketBuffer.read_u32 (b : VectorPacketBuffer) : Except String (Nat × VectorPacketBuffer) := do
  let (b1, bf) ← b.read_u8
  let (b2, bf) ← bf.read_u8
  let (b3, bf) ← bf.read_u8
  let (b4, bf) ← bf.read_u8
  pure ((b1 <<< 24) ||| (b2 <<< 16) ||| (b3 <<< 8) ||| b4, bf)

/-- Modelled from the spec: `step(n)` advances the cursor (spec 4.1). -/
def VectorPacketBuffer.step (b : VectorPacketBuffer) (n : Nat) : VectorPacketBuffer :=
  ⟨b.buffer, b.pos + n⟩

/-- Modelled from the spec: `seek(p)` (spec 4.1). -/
def VectorPacketBuffer.seek (b : VectorPacketBuffer) (p : Nat) : VectorPacketBuffer :=
  ⟨b.buffer, p⟩

/-- Modelled from the spec: `get_range(start, len)` — borrow without
advancing (spec 4.1). -/
def VectorPacketBuffer.get_range (b : VectorPacketBuffer) (start len : Nat) : Except String (List Nat) :=
  if start + len ≤ b.buffer.length then .ok ((b.buffer.drop start).take len)
  else .error "End of buffer"

/-- Pointer-jump cap of the compressed-name parser (spec 4.1: recommended cap 5). -/
def maxJumps : Nat := 5

/-- Modelled from the spec: the loop body of `read_qname` (spec 4.1).
Walks labels at `pos`; a length octet with the two high bits set is a
pointer whose low 14 bits are an absolute offset; at most `maxJumps`
pointer jumps are followed.  Returns the outcome, the label bytes
accumulated so far (joined by `.` = byte 46), the cursor committed at
the first pointer (if any), and the local position reached.  The fuel
argument strictly exceeds the number of loop iterations any input can
drive. -/
def readQnameAux (data : List Nat) : Nat → Nat → Nat → Option Nat → List Nat →
    Except String Unit × List Nat × Option Nat × Nat
  | 0, pos, _, committed, acc => (.error "End of buffer", acc, committed, pos)
  | fuel + 1, pos, jumps, committed, acc =>
    if maxJumps < jumps then
      (.error "Limit of 5 jumps exceeded", acc, committed, pos)
    else
      match data[pos]? with
      | none => (.error "End of buffer", acc, committed, pos)
      | some len =>
        if 0xC0 ≤ len then
          match data[pos + 1]? with
          | none => (.error "End of buffer", acc, committed, pos)
          | some b2 =>
            let committed2 := match committed with
              | some c => some c
              | none => some (pos + 2)
            readQnameAux data fuel ((len - 0xC0) * 256 + b2) (jumps + 1) committed2 acc
        else if len = 0 then
          (.ok (), acc, committed, pos + 1)
        else if pos + 1 + len ≤ data.length then
          readQnameAux data fuel (pos + 1 + len) jumps committed
            (if acc.isEmpty then (data.drop (pos + 1)).take len
             else acc ++ 46 :: (data.drop (pos + 1)).take len)
        else
          (.error "End of buffer", acc, committed, pos)

/-- Modelled from the spec: `read_qname` (spec 4.1).  Descends pointers
without advancing the outer cursor past the first pointer; on success
without a jump the cursor lands after the terminating zero octet; the
appended name bytes are reported even on failure (the Rust function
appends into a caller-supplied `&mut String`). -/
def VectorPacketBuffer.read_qname (b : VectorPacketBuffer) :
    Except String Unit × RStr × VectorPacketBuffer :=
  match readQnameAux b.buffer ((maxJumps + 2) * (b.buffer.length + 2)) b.pos 0 none [] with
  | (.ok _, name, committed, endPos) => (.ok (), name, ⟨b.buffer, committed.getD endPos⟩)
  | (.error e, name, committed, _) => (.error e, name, ⟨b.buffer, committed.getD b.pos⟩)

/-- Write a run of raw octets. -/
def VectorPacketBuffer.writeBytes (b : VectorPacketBuffer) (l : List Nat) : VectorPacketBuffer :=
  l.foldl (fun bf v => bf.write_u8 v) b

/-- Modelled from the spec: `write_qname` — emit labels (length octet
then the label bytes) terminated by a zero octet (spec 4.1).  Name
compression is optional for correctness (spec 4.1) and is not
modelled. -/
def VectorPacketBuffer.write_qname (b : VectorPacketBuffer) (name : RStr) : VectorPacketBuffer :=
  ((name.splitOn 46).foldl (fun bf l => (bf.write_u8 l.length).writeBytes l) b).write_u8 0

/-- Modelled from the spec: `qname_len(name)` — byte length the encoded
name would occupy without compression (spec 4.1). -/
def VectorPacketBuffer.qname_len (name : RStr) : Nat :=
  (name.splitOn 46).foldl (fun a l => a + 1 + l.length) 0 + 1

/-! ## The protocol data model (`src/dns/protocol.rs`) -/

/-- `QueryType` (protocol.rs). -/
inductive QueryType where
  | UNKNOWN (x : Nat)
  | A
  | NS
  | CNAME
  | SOA
  | MX
  | TXT
  | AAAA
  | SRV
  | OPT
deriving Repr, DecidableEq

/-- `QueryType::to_num` (protocol.rs). -/
def QueryType.to_num : QueryType → Nat
  | .UNKNOWN x => x
  | .A => 1
  | .NS => 2
  | .CNAME => 5
  | .SOA => 6
  | .MX => 15
  | .TXT => 16
  | .AAAA => 28
  | .SRV => 33
  | .OPT => 41

/-- `QueryType::from_num` (protocol.rs). -/
def QueryType.from_num (num : Nat) : QueryType :=
  match num with
  | 1 => .A
  | 2 => .NS
  | 5 => .CNAME
  | 6 => .SOA
  | 15 => .MX
  | 16 => .TXT
  | 28 => .AAAA
  | 33 => .SRV
  | 41 => .OPT
  | _ => .UNKNOWN num

/-- `std::net::Ipv4Addr`: four octets in network order. -/
structure Ipv4Addr where
  o1 : Nat
  o2 : Nat
  o3 : Nat
  o4 : Nat
deriving Repr, DecidableEq

/-- Decimal digits of a number, as ASCII bytes. -/
def natDecBytes (n : Nat) : List Nat := (Nat.toDigits 10 n).map Char.toNat

/-- `Ipv4Addr::to_string()`: dotted-quad decimal text, as bytes. -/
def Ipv4Addr.to_string (ip : Ipv4Addr) : RStr :=
  natDecBytes ip.o1 ++ 46 :: natDecBytes ip.o2 ++ 46 :: natDecBytes ip.o3 ++ 46 :: natDecBytes ip.o4

/-- `std::net::Ipv6Addr`: eight 16-bit segments, big-endian. -/
structure Ipv6Addr where
  s1 : Nat
  s2 : Nat
  s3 : Nat
  s4 : Nat
  s5 : Nat
  s6 : Nat
  s7 : Nat
  s8 : Nat
deriving Repr, DecidableEq

/-- `ResourceRecord` (protocol.rs), with the variants' positional
fields in source order. -/
inductive ResourceRecord where
  | UNKNOWN (domain : RStr) (qtype : Nat) (data_len : Nat) (ttl : Nat)
  | A (domain : RStr) (addr : Ipv4Addr) (ttl : Nat)
  | NS (domain : RStr) (host : RStr) (ttl : Nat)
  | CNAME (domain : RStr) (host : RStr) (ttl : Nat)
  | SOA (domain : RStr) (mname : RStr) (rname : RStr)
      (serial : Nat) (refresh : Nat) (retry : Nat) (expire : Nat) (minimum : Nat) (ttl : Nat)
  | MX (domain : RStr) (priority : Nat) (host : RStr) (ttl : Nat)
  | TXT (domain : RStr) (data : RStr) (ttl : Nat)
  | AAAA (domain : RStr) (addr : Ipv6Addr) (ttl : Nat)
  | SRV (domain : RStr) (priority : Nat) (weight : Nat) (port : Nat) (host : RStr) (ttl : Nat)
  | OPT (packet_len : Nat) (flags : Nat) (data : RStr)
deriving Repr, DecidableEq

/-- `ResourceRecord::read` (protocol.rs). -/
def ResourceRecord.read (b : VectorPacketBuffer) : Except String (ResourceRecord × VectorPacketBuffer) := do
  let (dres, domain, bf) := b.read_qname
  let _ ← dres
  let (qtype_num, bf) ← bf.read_u16
  let qtype := QueryType.from_num qtype_num
  let (cls, bf) ← bf.read_u16
  let (ttl, bf) ← bf.read_u32
  let (data_len, bf) ← bf.read_u16
  match qtype with
  | .A => do
    let (raw_addr, bf) ← bf.read_u32
    let addr := Ipv4Addr.mk ((raw_addr >>> 24) &&& 0xFF) ((raw_addr >>> 16) &&& 0xFF)
        ((raw_addr >>> 8) &&& 0xFF) ((raw_addr >>> 0) &&& 0xFF)
    pure (.A domain addr ttl, bf)
  | .AAAA => do
    let (raw1, bf) ← bf.read_u32
    let (raw2, bf) ← bf.read_u32
    let (raw3, bf) ← bf.read_u32
    let (raw4, bf) ← bf.read_u32
    let addr := Ipv6Addr.mk ((raw1 >>> 16) &&& 0xFFFF) ((raw1 >>> 0) &&& 0xFFFF)
        ((raw2 >>> 16) &&& 0xFFFF) ((raw2 >>> 0) &&& 0xFFFF)
        ((raw3 >>> 16) &&& 0xFFFF) ((raw3 >>> 0) &&& 0xFFFF)
        ((raw4 >>> 16) &&& 0xFFFF) ((raw4 >>> 0) &&& 0xFFFF)
    pure (.AAAA domain addr ttl, bf)
  | .NS => do
    let (nres, ns, bf) := bf.read_qname
    let _ ← nres
    pure (.NS domain ns ttl, bf)
  | .CNAME => do
    let (nres, cname, bf) := bf.read_qname
    let _ ← nres
    pure (.CNAME domain cname ttl, bf)
  | .SRV => do
    let (priority, bf) ← bf.read_u16
    let (weight, bf) ← bf.read_u16
    let (port, bf) ← bf.read_u16
    let (nres, srv, bf) := bf.read_qname
    let _ ← nres
    pure (.SRV domain priority weight port srv ttl, bf)
  | .MX => do
    let (priority, bf) ← bf.read_u16
    let (nres, mx, bf) := bf.read_qname
    let _ ← nres
    pure (.MX domain priority mx ttl, bf)
  | .SOA => do
    let (mres, mname, bf) := bf.read_qname
    let _ ← mres
    let (rres, rname, bf) := bf.read_qname
    let _ ← rres
    let (serial, bf) ← bf.read_u32
    let (refresh, bf) ← bf.read_u32
    let (retry, bf) ← bf.read_u32
    let (expire, bf) ← bf.read_u32
    let (minimum, bf) ← bf.read_u32
    pure (.SOA domain mname rname serial refresh retry expire minimum ttl, bf)
  | .TXT => do
    let cur_pos := bf.pos
    let txt ← bf.get_range cur_pos data_len
    let bf := bf.step data_len
    pure (.TXT domain txt ttl, bf)
  | .OPT => do
    let cur_pos := bf.pos
    let data ← bf.get_range cur_pos data_len
    let bf := bf.step data_len
    pure (.OPT cls ttl data, bf)
  | .UNKNOWN _ => do
    let bf := bf.step data_len
    pure (.UNKNOWN domain qtype_num data_len ttl, bf)

/-- `ResourceRecord::write` (protocol.rs).  Writes on the growable
buffer are total; the returned number is the count of octets
emitted. -/
def ResourceRecord.write (r : ResourceRecord) (b : VectorPacketBuffer) :
    Nat × VectorPacketBuffer :=
  let start_pos := b.pos
  let bf :=
    match r with
    | .A host addr ttl =>
      let b := b.write_qname host
      let b := b.write_u16 (QueryType.A.to_num)
      let b := b.write_u16 1
      let b := b.write_u32 ttl
      let b := b.write_u16 4
      let b := b.write_u8 addr.o1
      let b := b.write_u8 addr.o2
      let b := b.write_u8 addr.o3
      b.write_u8 addr.o4
    | .AAAA host addr ttl =>
      let b := b.write_qname host
      let b := b.write_u16 (QueryType.AAAA.to_num)
      let b := b.write_u16 1
      let b := b.write_u32 ttl
      let b := b.write_u16 16
      let b := b.write_u16 addr.s1
      let b := b.write_u16 addr.s2
      let b := b.write_u16 addr.s3
      let b := b.write_u16 addr.s4
      let b := b.write_u16 addr.s5
      let b := b.write_u16 addr.s6
      let b := b.write_u16 addr.s7
      b.write_u16 addr.s8
    | .NS domain host ttl =>
      let b := b.write_qname domain
      let b := b.write_u16 (QueryType.NS.to_num)
      let b := b.write_u16 1
      let b := b.write_u32 ttl
      let p := b.pos
      let b := b.write_u16 0
      let b := b.write_qname host
      b.set_u16 p (b.pos - (p + 2))
    | .CNAME domain host ttl =>
      let b := b.write_qname domain
      let b := b.write_u16 (QueryType.CNAME.to_num)
      let b := b.write_u16 1
      let b := b.write_u32 ttl
      let p := b.pos
      let b := b.write_u16 0
      let b := b.write_qname host
      b.set_u16 p (b.pos - (p + 2))
    | .SRV domain priority weight port host ttl =>
      let b := b.write_qname domain
      let b := b.write_u16 (QueryType.SRV.to_num)
      let b := b.write_u16 1
      let b := b.write_u32 ttl
      let p := b.pos
      let b := b.write_u16 0
      let b := b.write_u16 priority
      let b := b.write_u16 weight
      let b := b.write_u16 port
      let b := b.write_qname host
      b.set_u16 p (b.pos - (p + 2))
    | .MX domain priority host ttl =>
      let b := b.write_qname domain
      let b := b.write_u16 (QueryType.MX.to_num)
      let b := b.write_u16 1
      let b := b.write_u32 ttl
      let p := b.pos
      let b := b.write_u16 0
      let b := b.write_u16 priority
      let b := b.write_qname host
      b.set_u16 p (b.pos - (p + 2))
    | .SOA domain mname rname serial refresh retry expire minimum ttl =>
      let b := b.write_qname domain
      let b := b.write_u16 (QueryType.SOA.to_num)
      let b := b.write_u16 1
      let b := b.write_u32 ttl
      let p := b.pos
      let b := b.write_u16 0
      let b := b.write_qname mname
      let b := b.write_qname rname
      let b := b.write_u32 serial
      let b := b.write_u32 refresh
      let b := b.write_u32 retry
      let b := b.write_u32 expire
      let b := b.write_u32 minimum
      b.set_u16 p (b.pos - (p + 2))
    | .TXT domain txt ttl =>
      let b := b.write_qname domain
      let b := b.write_u16 (QueryType.TXT.to_num)
      let b := b.write_u16 1
      let b := b.write_u32 ttl
      let b := b.write_u16 txt.length
      b.writeBytes txt
    | .OPT _ _ _ => b
    | .UNKNOWN _ _ _ _ => b
  (bf.pos - start_pos, bf)

/-- `ResourceRecord::get_querytype` (protocol.rs). -/
def ResourceRecord.get_querytype : ResourceRecord → QueryType
  | .A _ _ _ => .A
  | .AAAA _ _ _ => .AAAA
  | .NS _ _ _ => .NS
  | .CNAME _ _ _ => .CNAME
  | .SRV _ _ _ _ _ _ => .SRV
  | .MX _ _ _ _ => .MX
  | .UNKNOWN _ qtype _ _ => .UNKNOWN qtype
  | .SOA _ _ _ _ _ _ _ _ _ => .SOA
  | .TXT _ _ _ => .TXT
  | .OPT _ _ _ => .OPT

/-- `ResourceRecord::get_domain` (protocol.rs). -/
def ResourceRecord.get_domain : ResourceRecord → Option RStr
  | .A domain _ _ => some domain
  | .AAAA domain _ _ => some domain
  | .NS domain _ _ => some domain
  | .CNAME domain _ _ => some domain
  | .SRV domain _ _ _ _ _ => some domain
  | .MX domain _ _ _ => some domain
  | .UNKNOWN domain _ _ _ => some domain
  | .SOA domain _ _ _ _ _ _ _ _ => some domain
  | .TXT domain _ _ => some domain
  | .OPT _ _ _ => none

/-- `ResourceRecord::get_ttl` (protocol.rs). -/
def ResourceRecord.get_ttl : ResourceRecord → Nat
  | .A _ _ ttl => ttl
  | .AAAA _ _ ttl => ttl
  | .NS _ _ ttl => ttl
  | .CNAME _ _ ttl => ttl
  | .SRV _ _ _ _ _ ttl => ttl
  | .MX _ _ _ ttl => ttl
  | .UNKNOWN _ _ _ ttl => ttl
  | .SOA _ _ _ _ _ _ _ _ ttl => ttl
  | .TXT _ _ ttl => ttl
  | .OPT _ _ _ => 0

/-- `ResultCode` (protocol.rs). -/
inductive ResultCode where
  | NOERROR
  | FORMERR
  | SERVFAIL
  | NXDOMAIN
  | NOTIMP
  | REFUSED
deriving Repr, DecidableEq

/-- The numeric discriminant of `ResultCode` (`as u8` in Rust). -/
def ResultCode.to_num : ResultCode → Nat
  | .NOERROR => 0
  | .FORMERR => 1
  | .SERVFAIL => 2
  | .NXDOMAIN => 3
  | .NOTIMP => 4
  | .REFUSED => 5

/-- `ResultCode::from_num` (protocol.rs). -/
def ResultCode.from_num (num : Nat) : ResultCode :=
  match num with
  | 0 => .NOERROR
  | 1 => .FORMERR
  | 2 => .SERVFAIL
  | 3 => .NXDOMAIN
  | 4 => .NOTIMP
  | 5 => .REFUSED
  | _ => .NOERROR

/-- `DnsHeader` (protocol.rs). -/
structure DnsHeader where
  id : Nat
  recursion_desired : Bool
  truncated_message : Bool
  authoritative_answer : Bool
  opcode : Nat
  response : Bool
  rescode : ResultCode
  checking_disabled : Bool
  authed_data : Bool
  z : Bool
  recursion_available : Bool
  questions : Nat
  answers : Nat
  authoritative_entries : Nat
  resource_entries : Nat
deriving Repr, DecidableEq

/-- `DnsHeader::new` (protocol.rs). -/
def DnsHeader.new : DnsHeader :=
  { id := 0
    recursion_desired := false
    truncated_message := false
    authoritative_answer := false
    opcode := 0
    response := false
    rescode := .NOERROR
    checking_disabled := false
    authed_data := false
    z := false
    recursion_available := false
    questions := 0
    answers := 0
    authoritative_entries := 0
    resource_entries := 0 }

/-- `DnsHeader::write` (protocol.rs).  The flag bytes are assembled
with bit-ors exactly as in the source; `opcode << 3` is a `u8` shift,
hence the `% 256`. -/
def DnsHeader.write (h : DnsHeader) (b : VectorPacketBuffer) : VectorPacketBuffer :=
  let b := b.write_u16 h.id
  let b := b.write_u8 (h.recursion_desired.toNat |||
      (h.truncated_message.toNat <<< 1) |||
      (h.authoritative_answer.toNat <<< 2) |||
      ((h.opcode <<< 3) % 256) |||
      (h.response.toNat <<< 7))
  let b := b.write_u8 (h.rescode.to_num |||
      (h.checking_disabled.toNat <<< 4) |||
      (h.authed_data.toNat <<< 5) |||
      (h.z.toNat <<< 6) |||
      (h.recursion_available.toNat <<< 7))
  let b := b.write_u16 h.questions
  let b := b.write_u16 h.answers
  let b := b.write_u16 h.authoritative_entries
  b.write_u16 h.resource_entries

/-- `DnsHeader::binary_len` (protocol.rs). -/
def DnsHeader.binary_len (_ : DnsHeader) : Nat := 12

/-- `DnsHeader::read` (protocol.rs).  The `&mut self` is modelled by
returning the overwritten header. -/
def DnsHeader.read (h : DnsHeader) (b : VectorPacketBuffer) :
    Except String (DnsHeader × VectorPacketBuffer) := do
  let (id, bf) ← b.read_u16
  let (flags, bf) ← bf.read_u16
  let a := flags >>> 8
  let lo := flags &&& 0xFF
  let (questions, bf) ← bf.read_u16
  let (answers, bf) ← bf.read_u16
  let (authoritative_entries, bf) ← bf.read_u16
  let (resource_entries, bf) ← bf.read_u16
  pure ({ h with
      id := id
      recursion_desired := (a &&& (1 <<< 0)) > 0
      truncated_message := (a &&& (1 <<< 1)) > 0
      authoritative_answer := (a &&& (1 <<< 2)) > 0
      opcode := (a >>> 3) &&& 0x0F
      response := (a &&& (1 <<< 7)) > 0
      rescode := ResultCode.from_num (lo &&& 0x0F)
      checking_disabled := (lo &&& (1 <<< 4)) > 0
      authed_data := (lo &&& (1 <<< 5)) > 0
      z := (lo &&& (1 <<< 6)) > 0
      recursion_available := (lo &&& (1 <<< 7)) > 0
      questions := questions
      answers := answers
      authoritative_entries := authoritative_entries
      resource_entries := resource_entries }, bf)

/-- `DnsQuestion` (protocol.rs). -/
structure DnsQuestion where
  name : RStr
  qtype : QueryType
deriving Repr, DecidableEq

/-- `DnsQuestion::new` (protocol.rs). -/
def DnsQuestion.new (name : RStr) (qtype : QueryType) : DnsQuestion :=
  { name := name, qtype := qtype }

/-- `DnsQuestion::binary_len` (protocol.rs): `qname_len(name) + 4`.
The buffer argument of the source is unused by the length
computation. -/
def DnsQuestion.binary_len (q : DnsQuestion) : Nat :=
  VectorPacketBuffer.qname_len q.name + 4

/-- `DnsQuestion::write` (protocol.rs). -/
def DnsQuestion.write (q : DnsQuestion) (b : VectorPacketBuffer) : VectorPacketBuffer :=
  let b := b.write_qname q.name
  let b := b.write_u16 q.qtype.to_num
  b.write_u16 1

/-- `DnsQuestion::read` (protocol.rs).  The source discards the result
of the name read and of the class read (`let _ = ...`): a failure of
either is NOT propagated; the partially appended name and the buffer
state reached are kept. -/
def DnsQuestion.read (q : DnsQuestion) (b : VectorPacketBuffer) :
    Except String (DnsQuestion × VectorPacketBuffer) := do
  let (_, name, bf) := b.read_qname
  let (t, bf) ← bf.read_u16
  let bf := match bf.read_u16 with
    | .ok (_, bf2) => bf2
    | .error _ => bf
  pure ({ name := q.name ++ name, qtype := QueryType.from_num t }, bf)

/-- `DnsPacket` (protocol.rs). -/
structure DnsPacket where
  header : DnsHeader
  questions : List DnsQuestion
  answers : List ResourceRecord
  authorities : List ResourceRecord
  resources : List ResourceRecord
deriving Repr, DecidableEq

/-- `DnsPacket::new` (protocol.rs). -/
def DnsPacket.new : DnsPacket :=
  { header := DnsHeader.new
    questions := []
    answers := []
    authorities := []
    resources := [] }

/-- The `for _ in 0..n { questions.push(try!(...)) }` loop of
`DnsPacket::from_buffer`. -/
def readQuestions : Nat → VectorPacketBuffer →
    Except String (List DnsQuestion × VectorPacketBuffer)
  | 0, b => .ok ([], b)
  | n + 1, b => do
    let (q, b) ← (DnsQuestion.new [] (.UNKNOWN 0)).read b
    let (rest, b) ← readQuestions n b
    pure (q :: rest, b)

/-- The `for _ in 0..n { list.push(try!(ResourceRecord::read(...))) }`
loops of `DnsPacket::from_buffer`. -/
def readRecords : Nat → VectorPacketBuffer →
    Except String (List ResourceRecord × VectorPacketBuffer)
  | 0, b => .ok ([], b)
  | n + 1, b => do
    let (r, b) ← ResourceRecord.read b
    let (rest, b) ← readRecords n b
    pure (r :: rest, b)

/-- `DnsPacket::from_buffer` (protocol.rs). -/
def DnsPacket.from_buffer (b : VectorPacketBuffer) : Except String DnsPacket := do
  let (header, b) ← DnsHeader.new.read b
  let (questions, b) ← readQuestions header.questions b
  let (answers, b) ← readRecords header.answers b
  let (authorities, b) ← readRecords header.authoritative_entries b
  let (resources, _) ← readRecords header.resource_entries b
  pure { header := header, questions := questions, answers := answers
         authorities := authorities, resources := resources }

/-- `DnsPacket::get_random_a` (protocol.rs).  The call to
`rand::random::<usize>()` is modelled by the extra argument `r`. -/
def DnsPacket.get_random_a (p : DnsPacket) (r : Nat) : Option RStr :=
  match p.answers[r % p.answers.length]? with
  | some (ResourceRecord.A _ ip _) => some ip.to_string
  | _ => none

/-- `DnsPacket::get_unresolved_cnames` (protocol.rs).  Note that the
`unresolved.push` of the source runs for every answer whose `matched`
flag stayed false, and the flag can only be set for CNAME answers. -/
def DnsPacket.get_unresolved_cnames (p : DnsPacket) : List ResourceRecord :=
  p.answers.filter fun answer =>
    match answer with
    | ResourceRecord.CNAME _ host _ =>
      !(p.answers.any fun a2 =>
        match a2 with
        | ResourceRecord.A host2 _ _ => host2 == host
        | _ => false)
    | _ => true

/-- The record-emitting loop of `DnsPacket::write` (protocol.rs): walk
the chained `answers ++ authorities ++ resources` with index `i`,
accumulate the estimated size, and on the first overflow of `max_size`
set the TC bit and remember how many records were accepted.  Counter
increments are `u16` additions, hence `% 65536`. -/
def writeRecordLoop (ansLen authLen total max_size : Nat) :
    List ResourceRecord → Nat → Nat → DnsHeader → VectorPacketBuffer →
    Nat × DnsHeader × VectorPacketBuffer
  | [], _, _, h, tb => (total, h, tb)
  | r :: rest, i, size, h, tb =>
    let (written, tb) := r.write tb
    let size := size + written
    if max_size < size then
      (i, { h with truncated_message := true }, tb)
    else if i < ansLen then
      writeRecordLoop ansLen authLen total max_size rest (i + 1) size
        { h with answers := (h.answers + 1) % 65536 } tb
    else if i < ansLen + authLen then
      writeRecordLoop ansLen authLen total max_size rest (i + 1) size
        { h with authoritative_entries := (h.authoritative_entries + 1) % 65536 } tb
    else
      writeRecordLoop ansLen authLen total max_size rest (i + 1) size
        { h with resource_entries := (h.resource_entries + 1) % 65536 } tb

/-- `DnsPacket::write` (protocol.rs).  The `&mut self` mutation of the
header is modelled by returning the updated packet alongside the
buffer. -/
def DnsPacket.write (p : DnsPacket) (buffer : VectorPacketBuffer) (max_size : Nat) :
    DnsPacket × VectorPacketBuffer :=
  let st := p.questions.foldl
    (fun (st : Nat × VectorPacketBuffer) q => (st.1 + q.binary_len, q.write st.2))
    (p.header.binary_len, VectorPacketBuffer.new)
  let records := p.answers ++ p.authorities ++ p.resources
  let res := writeRecordLoop p.answers.length p.authorities.length
    (p.answers.length + p.authorities.length + p.resources.length) max_size
    records 0 st.1 p.header st.2
  let record_count := res.1
  let h := { res.2.1 with questions := p.questions.length % 65536 }
  let buffer := h.write buffer
  let buffer := p.questions.foldl (fun b q => q.write b) buffer
  let buffer := (records.take record_count).foldl (fun b r => (r.write b).2) buffer
  ({ p with header := h }, buffer)

/-! ## Pure byte-level descriptions of the writers

The writers above thread a buffer exactly as the Rust code does.  For
reasoning we characterise each writer, once and for all, as appending
a pure byte sequence to a buffer whose cursor sits at its end. -/

/-- A buffer whose cursor sits at its end (the state in which all
writing in `DnsPacket::write` happens). -/
def aligned (data : List Nat) : VectorPacketBuffer := ⟨data, data.length⟩

/-- The two octets `write_u16` emits. -/
def enc16 (v : Nat) : List Nat := [(v >>> 8) % 256, v % 256]

/-- The four octets `write_u32` emits. -/
def enc32 (v : Nat) : List Nat :=
  [(v >>> 24) % 256, (v >>> 16) % 256, (v >>> 8) % 256, v % 256]

/-- The octets one label contributes to an encoded name. -/
def encLabel (l : List Nat) : List Nat := l.length % 256 :: l.map (fun b => b % 256)

/-- The octets `write_qname` emits. -/
def encQname (name : RStr) : List Nat := ((name.splitOn 46).map encLabel).flatten ++ [0]

/-- The octets `DnsQuestion::write` emits. -/
def encQuestion (q : DnsQuestion) : List Nat :=
  encQname q.name ++ enc16 q.qtype.to_num ++ enc16 1

/-- The high flag byte assembled by `DnsHeader::write`. -/
def flagsHi (h : DnsHeader) : Nat :=
  h.recursion_desired.toNat ||| (h.truncated_message.toNat <<< 1) |||
    (h.authoritative_answer.toNat <<< 2) ||| ((h.opcode <<< 3) % 256) |||
    (h.response.toNat <<< 7)

/-- The low flag byte assembled by `DnsHeader::write`. -/
def flagsLo (h : DnsHeader) : Nat :=
  h.rescode.to_num ||| (h.checking_disabled.toNat <<< 4) |||
    (h.authed_data.toNat <<< 5) ||| (h.z.toNat <<< 6) |||
    (h.recursion_available.toNat <<< 7)

/-- The twelve octets `DnsHeader::write` emits. -/
def encHeader (h : DnsHeader) : List Nat :=
  enc16 h.id ++ [flagsHi h % 256, flagsLo h % 256] ++ enc16 h.questions ++
    enc16 h.answers ++ enc16 h.authoritative_entries ++ enc16 h.resource_entries

/-- The octets `ResourceRecord::write` emits for each variant;
`OPT` and `UNKNOWN` records are skipped by the writer. -/
def encRecord : ResourceRecord → List Nat
  | .A d ip ttl => encQname d ++ enc16 1 ++ enc16 1 ++ enc32 ttl ++ enc16 4 ++
      [ip.o1 % 256, ip.o2 % 256, ip.o3 % 256, ip.o4 % 256]
  | .AAAA d ip ttl => encQname d ++ enc16 28 ++ enc16 1 ++ enc32 ttl ++ enc16 16 ++
      enc16 ip.s1 ++ enc16 ip.s2 ++ enc16 ip.s3 ++ enc16 ip.s4 ++
      enc16 ip.s5 ++ enc16 ip.s6 ++ enc16 ip.s7 ++ enc16 ip.s8
  | .NS d host ttl => encQname d ++ enc16 2 ++ enc16 1 ++ enc32 ttl ++
      enc16 (encQname host).length ++ encQname host
  | .CNAME d host ttl => encQname d ++ enc16 5 ++ enc16 1 ++ enc32 ttl ++
      enc16 (encQname host).length ++ encQname host
  | .SRV d priority weight port host ttl => encQname d ++ enc16 33 ++ enc16 1 ++ enc32 ttl ++
      enc16 (6 + (encQname host).length) ++ enc16 priority ++ enc16 weight ++ enc16 port ++
      encQname host
  | .MX d priority host ttl => encQname d ++ enc16 15 ++ enc16 1 ++ enc32 ttl ++
      enc16 (2 + (encQname host).length) ++ enc16 priority ++ encQname host
  | .SOA d mname rname serial refresh retry expire minimum ttl =>
      encQname d ++ enc16 6 ++ enc16 1 ++ enc32 ttl ++
      enc16 ((encQname mname).length + (encQname rname).length + 20) ++
      encQname mname ++ encQname rname ++ enc32 serial ++ enc32 refresh ++
      enc32 retry ++ enc32 expire ++ enc32 minimum
  | .TXT d txt ttl => encQname d ++ enc16 16 ++ enc16 1 ++ enc32 ttl ++
      enc16 txt.length ++ txt.map (fun b => b % 256)
  | .OPT _ _ _ => []
  | .UNKNOWN _ _ _ _ => []

theorem write_u8_aligned (data : List Nat) (v : Nat) :
    (aligned data).write_u8 v = aligned (data ++ [v % 256]) := by
  simp [aligned, VectorPacketBuffer.write_u8, setByte]

theorem write_u16_aligned (data : List Nat) (v : Nat) :
    (aligned data).write_u16 v = aligned (data ++ enc16 v) := by
  simp [VectorPacketBuffer.write_u16, write_u8_aligned, enc16]

theorem write_u32_aligned (data : List Nat) (v : Nat) :
    (aligned data).write_u32 v = aligned (data ++ enc32 v) := by
  simp [VectorPacketBuffer.write_u32, write_u8_aligned, enc32]

theorem writeBytes_aligned (l data : List Nat) :
    (aligned data).writeBytes l = aligned (data ++ l.map (fun b => b % 256)) := by
  induction l generalizing data with
  | nil => simp [VectorPacketBuffer.writeBytes]
  | cons x xs ih =>
    simp only [VectorPacketBuffer.writeBytes, List.foldl_cons] at ih ⊢
    rw [write_u8_aligned, ih]
    simp

theorem write_qname_foldl (ls : List (List Nat)) (data : List Nat) :
    ls.foldl (fun bf l => (bf.write_u8 l.length).writeBytes l) (aligned data)
      = aligned (data ++ (ls.map encLabel).flatten) := by
  induction ls generalizing data with
  | nil => simp
  | cons l rest ih =>
    simp only [List.foldl_cons]
    rw [write_u8_aligned, writeBytes_aligned, ih]
    simp [encLabel]

theorem write_qname_aligned (data : List Nat) (name : RStr) :
    (aligned data).write_qname name = aligned (data ++ encQname name) := by
  simp only [VectorPacketBuffer.write_qname, write_qname_foldl, write_u8_aligned, encQname]
  simp

theorem question_write_aligned (q : DnsQuestion) (data : List Nat) :
    q.write (aligned data) = aligned (data ++ encQuestion q) := by
  simp [DnsQuestion.write, write_qname_aligned, write_u16_aligned, encQuestion]

theorem header_write_aligned (h : DnsHeader) (data : List Nat) :
    h.write (aligned data) = aligned (data ++ encHeader h) := by
  simp [DnsHeader.write, write_u16_aligned, write_u8_aligned, encHeader, flagsHi, flagsLo]

theorem list_set_at_length (l1 : List Nat) (a v : Nat) (l2 : List Nat) :
    (l1 ++ a :: l2).set l1.length v = l1 ++ v :: l2 := by
  induction l1 with
  | nil => rfl
  | cons x xs ih => simp [List.set, ih]

theorem setByte_mid (l1 : List Nat) (a v : Nat) (l2 : List Nat) :
    setByte (l1 ++ a :: l2) l1.length v = l1 ++ v :: l2 := by
  have hlt : l1.length < (l1 ++ a :: l2).length := by simp
  simp [setByte, hlt, list_set_at_length]

theorem set_u16_mid (l1 : List Nat) (x y : Nat) (l2 : List Nat) (n v : Nat) :
    VectorPacketBuffer.set_u16 ⟨l1 ++ x :: y :: l2, n⟩ l1.length v
      = ⟨l1 ++ enc16 v ++ l2, n⟩ := by
  simp only [VectorPacketBuffer.set_u16, setByte_mid]
  have h2 : l1 ++ ((v >>> 8) % 256) :: y :: l2
      = (l1 ++ [(v >>> 8) % 256]) ++ y :: l2 := by simp
  have h3 : l1.length + 1 = (l1 ++ [(v >>> 8) % 256]).length := by simp
  rw [h2, h3, setByte_mid]
  simp [enc16]

theorem record_write_aligned (r : ResourceRecord) (data : List Nat) :
    r.write (aligned data) = ((encRecord r).length, aligned (data ++ encRecord r)) := by
  have hslot : ∀ pre payload : List Nat,
      VectorPacketBuffer.set_u16 (aligned (pre ++ enc16 0 ++ payload)) pre.length
        ((aligned (pre ++ enc16 0 ++ payload)).pos - (pre.length + 2))
        = aligned (pre ++ enc16 payload.length ++ payload) := by
    intro pre payload
    have h0 : enc16 0 = 0 :: 0 :: [] := by decide
    have hpos : (aligned (pre ++ enc16 0 ++ payload)).pos
        = pre.length + 2 + payload.length := by
      simp [aligned, h0]
      omega
    have hsub : pre.length + 2 + payload.length - (pre.length + 2) = payload.length := by omega
    rw [hpos, hsub]
    have hbuf : (aligned (pre ++ enc16 0 ++ payload)).buffer
        = pre ++ 0 :: 0 :: payload := by simp [aligned, h0]
    have : VectorPacketBuffer.set_u16 (aligned (pre ++ enc16 0 ++ payload)) pre.length payload.length
        = VectorPacketBuffer.set_u16 ⟨pre ++ 0 :: 0 :: payload, pre.length + 2 + payload.length⟩
            pre.length payload.length := by
      rw [show aligned (pre ++ enc16 0 ++ payload)
          = ⟨pre ++ 0 :: 0 :: payload, pre.length + 2 + payload.length⟩ by
        simp [aligned, h0]
        omega]
    rw [this, set_u16_mid]
    simp [aligned, enc16]
    omega
  cases r with
  | A d ip ttl =>
    simp only [ResourceRecord.write, QueryType.to_num, write_qname_aligned,
      write_u16_aligned, write_u32_aligned, write_u8_aligned, encRecord]
    simp [aligned, enc16]
  | AAAA d ip ttl =>
    simp only [ResourceRecord.write, QueryType.to_num, write_qname_aligned,
      write_u16_aligned, write_u32_aligned, encRecord]
    simp [aligned, enc16]
  | TXT d txt ttl =>
    simp only [ResourceRecord.write, QueryType.to_num, write_qname_aligned,
      write_u16_aligned, write_u32_aligned, writeBytes_aligned, encRecord]
    simp [aligned, enc16]
  | OPT a b c =>
    simp [ResourceRecord.write, encRecord, aligned]
  | UNKNOWN a b c dl =>
    simp [ResourceRecord.write, encRecord, aligned]
  | NS d host ttl =>
    simp only [ResourceRecord.write, QueryType.to_num, write_qname_aligned,
      write_u16_aligned, write_u32_aligned]
    rw [show data ++ encQname d ++ enc16 2 ++ enc16 1 ++ enc32 ttl ++ enc16 0 ++ encQname host
        = (data ++ encQname d ++ enc16 2 ++ enc16 1 ++ enc32 ttl) ++ enc16 0 ++ encQname host
        by simp]
    rw [show (aligned (data ++ encQname d ++ enc16 2 ++ enc16 1 ++ enc32 ttl)).pos
        = (data ++ encQname d ++ enc16 2 ++ enc16 1 ++ enc32 ttl).length by rfl]
    rw [hslot]
    simp [aligned, encRecord, enc16]
  | CNAME d host ttl =>
    simp only [ResourceRecord.write, QueryType.to_num, write_qname_aligned,
      write_u16_aligned, write_u32_aligned]
    rw [show data ++ encQname d ++ enc16 5 ++ enc16 1 ++ enc32 ttl ++ enc16 0 ++ encQname host
        = (data ++ encQname d ++ enc16 5 ++ enc16 1 ++ enc32 ttl) ++ enc16 0 ++ encQname host
        by simp]
    rw [show (aligned (data ++ encQname d ++ enc16 5 ++ enc16 1 ++ enc32 ttl)).pos
        = (data ++ encQname d ++ enc16 5 ++ enc16 1 ++ enc32 ttl).length by rfl]
    rw [hslot]
    simp [aligned, encRecord, enc16]
  | MX d priority host ttl =>
    simp only [ResourceRecord.write, QueryType.to_num, write_qname_aligned,
      write_u16_aligned, write_u32_aligned]
    rw [show data ++ encQname d ++ enc16 15 ++ enc16 1 ++ enc32 ttl ++ enc16 0
          ++ enc16 priority ++ encQname host
        = (data ++ encQname d ++ enc16 15 ++ enc16 1 ++ enc32 ttl) ++ enc16 0
          ++ (enc16 priority ++ encQname host) by simp]
    rw [show (aligned (data ++ encQname d ++ enc16 15 ++ enc16 1 ++ enc32 ttl)).pos
        = (data ++ encQname d ++ enc16 15 ++ enc16 1 ++ enc32 ttl).length by rfl]
    rw [hslot]
    simp [aligned, encRecord, enc16]
    omega
  | SRV d priority weight port host ttl =>
    simp only [ResourceRecord.write, QueryType.to_num, write_qname_aligned,
      write_u16_aligned, write_u32_aligned]
    rw [show data ++ encQname d ++ enc16 33 ++ enc16 1 ++ enc32 ttl ++ enc16 0
          ++ enc16 priority ++ enc16 weight ++ enc16 port ++ encQname host
        = (data ++ encQname d ++ enc16 33 ++ enc16 1 ++ enc32 ttl) ++ enc16 0
          ++ (enc16 priority ++ enc16 weight ++ enc16 port ++ encQname host) by simp]
    rw [show (aligned (data ++ encQname d ++ enc16 33 ++ enc16 1 ++ enc32 ttl)).pos
        = (data ++ encQname d ++ enc16 33 ++ enc16 1 ++ enc32 ttl).length by rfl]
    rw [hslot]
    simp [aligned, encRecord, enc16]
    omega
  | SOA d mname rname serial refresh retry expire minimum ttl =>
    simp only [ResourceRecord.write, QueryType.to_num, write_qname_aligned,
      write_u16_aligned, write_u32_aligned]
    rw [show data ++ encQname d ++ enc16 6 ++ enc16 1 ++ enc32 ttl ++ enc16 0
          ++ encQname mname ++ encQname rname ++ enc32 serial ++ enc32 refresh
          ++ enc32 retry ++ enc32 expire ++ enc32 minimum
        = (data ++ encQname d ++ enc16 6 ++ enc16 1 ++ enc32 ttl) ++ enc16 0
          ++ (encQname mname ++ encQname rname ++ enc32 serial ++ enc32 refresh
          ++ enc32 retry ++ enc32 expire ++ enc32 minimum) by simp]
    rw [show (aligned (data ++ encQname d ++ enc16 6 ++ enc16 1 ++ enc32 ttl)).pos
        = (data ++ encQname d ++ enc16 6 ++ enc16 1 ++ enc32 ttl).length by rfl]
    rw [hslot]
    rw [show (encQname mname ++ encQname rname ++ enc32 serial ++ enc32 refresh
          ++ enc32 retry ++ enc32 expire ++ enc32 minimum).length
        = (encQname mname).length + (encQname rname).length + 20 by
      simp [enc32]
      omega]
    simp [aligned, encRecord, enc16]

/-! ## Reading back what was written -/

theorem getElem_at_len (pre post : List Nat) (v : Nat) :
    (pre ++ v :: post)[pre.length]? = some v := by
  rw [List.getElem?_append_right (Nat.le_refl _), Nat.sub_self]
  simp

theorem drop_at_len (pre post : List Nat) :
    (pre ++ post).drop pre.length = post := by
  simp

/-- `a <<< k ||| b` recombines to addition when `b` stays below `2^k`. -/
theorem shiftLeft_or_eq_add (a b k : Nat) (hb : b < 2 ^ k) :
    (a <<< k) ||| b = a * 2 ^ k + b := by
  rw [Nat.shiftLeft_eq]
  rw [Nat.mul_comm a (2 ^ k)]
  rw [Nat.mul_add_lt_is_or hb a]

theorem dec16 (x y : Nat) (hy : y < 256) : (x <<< 8) ||| y = x * 256 + y := by
  have := shiftLeft_or_eq_add x y 8 (by omega)
  simpa using this

theorem dec32 (b1 b2 b3 b4 : Nat) (h2 : b2 < 256) (h3 : b3 < 256) (h4 : b4 < 256) :
    (b1 <<< 24) ||| (b2 <<< 16) ||| (b3 <<< 8) ||| b4
      = b1 * 16777216 + b2 * 65536 + b3 * 256 + b4 := by
  rw [Nat.or_assoc, Nat.or_assoc]
  rw [dec16 b3 b4 h4]
  rw [shiftLeft_or_eq_add b2 (b3 * 256 + b4) 16 (by omega)]
  rw [shiftLeft_or_eq_add b1 (b2 * 2 ^ 16 + (b3 * 256 + b4)) 24 (by norm_num; omega)]
  norm_num
  omega

theorem read_u8_at (pre post : List Nat) (v : Nat) :
    VectorPacketBuffer.read_u8 ⟨pre ++ v :: post, pre.length⟩
      = .ok (v, ⟨pre ++ v :: post, pre.length + 1⟩) := by
  simp only [VectorPacketBuffer.read_u8]
  rw [getElem_at_len]

theorem read_u16_at (pre post : List Nat) (x y : Nat) :
    VectorPacketBuffer.read_u16 ⟨pre ++ x :: y :: post, pre.length⟩
      = .ok ((x <<< 8) ||| y, ⟨pre ++ x :: y :: post, pre.length + 2⟩) := by
  have h2 : (⟨pre ++ x :: y :: post, pre.length + 1⟩ : VectorPacketBuffer)
      = ⟨(pre ++ [x]) ++ y :: post, (pre ++ [x]).length⟩ := by simp
  have e2 := read_u8_at (pre ++ [x]) post y
  simp only [VectorPacketBuffer.read_u16, bind, Except.bind, pure, Except.pure,
    read_u8_at pre (y :: post) x, h2, e2]
  simp

theorem read_u16_enc (pre post : List Nat) (v : Nat) (hv : v < 65536) :
    VectorPacketBuffer.read_u16 ⟨pre ++ enc16 v ++ post, pre.length⟩
      = .ok (v, ⟨pre ++ enc16 v ++ post, pre.length + 2⟩) := by
  have h : enc16 v = ((v >>> 8) % 256) :: (v % 256) :: [] := rfl
  rw [h]
  rw [show pre ++ ((v >>> 8) % 256) :: (v % 256) :: [] ++ post
      = pre ++ ((v >>> 8) % 256) :: (v % 256) :: post by simp]
  rw [read_u16_at]
  have hs : v >>> 8 = v / 256 := by
    rw [Nat.shiftRight_eq_div_pow]
  have hval : ((v >>> 8) % 256) <<< 8 ||| v % 256 = v := by
    rw [dec16 _ _ (by omega)]
    omega
  rw [hval]

theorem read_u32_at (pre post : List Nat) (a b c d : Nat) :
    VectorPacketBuffer.read_u32 ⟨pre ++ a :: b :: c :: d :: post, pre.length⟩
      = .ok ((a <<< 24) ||| (b <<< 16) ||| (c <<< 8) ||| d,
          ⟨pre ++ a :: b :: c :: d :: post, pre.length + 4⟩) := by
  have h2 : (⟨pre ++ a :: b :: c :: d :: post, pre.length + 1⟩ : VectorPacketBuffer)
      = ⟨(pre ++ [a]) ++ b :: c :: d :: post, (pre ++ [a]).length⟩ := by simp
  have h3 : (⟨(pre ++ [a]) ++ b :: c :: d :: post, (pre ++ [a]).length + 1⟩ : VectorPacketBuffer)
      = ⟨(pre ++ [a, b]) ++ c :: d :: post, (pre ++ [a, b]).length⟩ := by simp
  have h4 : (⟨(pre ++ [a, b]) ++ c :: d :: post, (pre ++ [a, b]).length + 1⟩ : VectorPacketBuffer)
      = ⟨(pre ++ [a, b, c]) ++ d :: post, (pre ++ [a, b, c]).length⟩ := by simp
  have e2 := read_u8_at (pre ++ [a]) (c :: d :: post) b
  have e3 := read_u8_at (pre ++ [a, b]) (d :: post) c
  have e4 := read_u8_at (pre ++ [a, b, c]) post d
  simp only [VectorPacketBuffer.read_u32, bind, Except.bind, pure, Except.pure,
    read_u8_at pre (b :: c :: d :: post) a, h2, e2, h3, e3, h4, e4]
  simp

theorem read_u32_enc (pre post : List Nat) (v : Nat) (hv : v < 4294967296) :
    VectorPacketBuffer.read_u32 ⟨pre ++ enc32 v ++ post, pre.length⟩
      = .ok (v, ⟨pre ++ enc32 v ++ post, pre.length + 4⟩) := by
  have h : enc32 v = ((v >>> 24) % 256) :: ((v >>> 16) % 256) :: ((v >>> 8) % 256)
      :: (v % 256) :: [] := rfl
  rw [h]
  rw [show pre ++ ((v >>> 24) % 256) :: ((v >>> 16) % 256) :: ((v >>> 8) % 256)
        :: (v % 256) :: [] ++ post
      = pre ++ ((v >>> 24) % 256) :: ((v >>> 16) % 256) :: ((v >>> 8) % 256)
        :: (v % 256) :: post by simp]
  rw [read_u32_at]
  have h24 : v >>> 24 = v / 16777216 := by rw [Nat.shiftRight_eq_div_pow]
  have h16 : v >>> 16 = v / 65536 := by rw [Nat.shiftRight_eq_div_pow]
  have h8 : v >>> 8 = v / 256 := by rw [Nat.shiftRight_eq_div_pow]
  have : ((v >>> 24) % 256) <<< 24 ||| ((v >>> 16) % 256) <<< 16
      ||| ((v >>> 8) % 256) <<< 8 ||| v % 256 = v := by
    rw [dec32 _ _ _ _ (by omega) (by omega) (by omega), h24, h16, h8]
    omega
  rw [this]

/-! ## Round trip of encoded names -/

/-- A DNS-valid name: at most 253 octets in all, and every label
(maximal run between `.` bytes) is nonempty, at most 63 octets, and
consists of single octets. -/
def WfName (name : RStr) : Prop :=
  name.length ≤ 253 ∧ ∀ l ∈ name.splitOn 46, l ≠ [] ∧ l.length ≤ 63 ∧ ∀ b ∈ l, b < 256

instance (name : RStr) : Decidable (WfName name) := by
  unfold WfName
  infer_instance

/-- How `read_qname` accumulates labels into the caller's string. -/
def joinAcc (acc : List Nat) (ls : List (List Nat)) : List Nat :=
  ls.foldl (fun a l => if a.isEmpty then l else a ++ 46 :: l) acc

theorem joinAcc_nil : joinAcc acc [] = acc := rfl

theorem joinAcc_go (rest : List (List Nat)) :
    ∀ a : List Nat, a ≠ [] →
      joinAcc a rest = a ++ (rest.map (fun l => 46 :: l)).flatten := by
  induction rest with
  | nil => intro a _; simp [joinAcc]
  | cons l rs ih =>
    intro a ha
    have : joinAcc a (l :: rs) = joinAcc (a ++ 46 :: l) rs := by
      simp [joinAcc, ha]
    rw [this, ih (a ++ 46 :: l) (by simp)]
    simp

theorem intercalate_dot_cons (l : List Nat) (rest : List (List Nat)) :
    [46].intercalate (l :: rest) = l ++ (rest.map (fun t => 46 :: t)).flatten := by
  induction rest generalizing l with
  | nil => simp [List.intercalate]
  | cons m rs ih =>
    simp only [List.intercalate, List.intersperse_cons_cons, List.flatten] at ih ⊢
    rw [ih m]
    simp

theorem joinAcc_nil_eq_name (name : RStr) (h : WfName name) :
    joinAcc [] (name.splitOn 46) = name := by
  have hrec : [46].intercalate (name.splitOn 46) = name := List.intercalate_splitOn name 46
  cases hls : name.splitOn 46 with
  | nil =>
    rw [hls] at hrec
    simpa [joinAcc, List.intercalate] using hrec
  | cons l rest =>
    have hl : l ≠ [] := ((h.2 l (by rw [hls]; exact List.mem_cons_self l rest)).1)
    have hstep : joinAcc [] (l :: rest) = joinAcc l rest := by
      simp [joinAcc]
    rw [hls] at hrec
    rw [hstep, joinAcc_go rest l hl]
    rwa [intercalate_dot_cons] at hrec

/-- Under `WfName`-style label bounds the label encoding is literal. -/
theorem encLabel_wf (l : List Nat) (hlen : l.length ≤ 63) (hb : ∀ b ∈ l, b < 256) :
    encLabel l = l.length :: l := by
  unfold encLabel
  congr 1
  · omega
  · exact (List.map_congr_left (fun b hbm => Nat.mod_eq_of_lt (hb b hbm))).trans (List.map_id l)

theorem encQname_wf (name : RStr) (h : WfName name) :
    encQname name = ((name.splitOn 46).map (fun l => l.length :: l)).flatten ++ [0] := by
  unfold encQname
  congr 2
  exact List.map_congr_left fun l hl => encLabel_wf l (h.2 l hl).2.1 (h.2 l hl).2.2

theorem chunks_len_ge (ls : List (List Nat)) :
    ls.length ≤ ((ls.map (fun l => l.length :: l)).flatten).length := by
  induction ls with
  | nil => simp
  | cons l rs ih =>
    simp only [List.map_cons, List.flatten_cons, List.length_cons, List.length_append]
    omega

theorem readQnameAux_labels (ls : List (List Nat)) :
    ∀ (pre post acc : List Nat) (fuel : Nat),
      (∀ l ∈ ls, l ≠ [] ∧ l.length ≤ 63) →
      ls.length < fuel →
      readQnameAux (pre ++ (ls.map (fun l => l.length :: l)).flatten ++ 0 :: post)
          fuel pre.length 0 none acc
        = (.ok (), joinAcc acc ls, none,
            pre.length + ((ls.map (fun l => l.length :: l)).flatten).length + 1) := by
  induction ls with
  | nil =>
    intro pre post acc fuel _ hfuel
    obtain ⟨f, rfl⟩ : ∃ f, fuel = f + 1 := ⟨fuel - 1, by omega⟩
    rw [show pre ++ (([] : List (List Nat)).map (fun l => l.length :: l)).flatten ++ 0 :: post
        = pre ++ 0 :: post by simp]
    simp only [readQnameAux, maxJumps]
    rw [getElem_at_len]
    simp [joinAcc]
  | cons l rs ih =>
    intro pre post acc fuel hwf hfuel
    obtain ⟨f, rfl⟩ : ∃ f, fuel = f + 1 := ⟨fuel - 1, by omega⟩
    have hl := hwf l (List.mem_cons_self l rs)
    have hlen0 : ¬ (l.length = 0) := by
      intro h0
      exact hl.1 (List.eq_nil_of_length_eq_zero h0)
    have hdata : pre ++ ((l :: rs).map (fun t => t.length :: t)).flatten ++ 0 :: post
        = pre ++ l.length :: (l ++ ((rs.map (fun t => t.length :: t)).flatten ++ 0 :: post)) := by
      simp
    rw [hdata]
    simp only [readQnameAux, maxJumps]
    rw [getElem_at_len]
    have h5 : ¬ ((5 : Nat) < 0) := by omega
    have hnoptr : ¬ ((0xC0 : Nat) ≤ l.length) := by omega
    have htotal : pre.length + 1 + l.length
        ≤ (pre ++ l.length :: (l ++ ((rs.map (fun t => t.length :: t)).flatten
            ++ 0 :: post))).length := by
      simp
      omega
    simp only [if_neg h5, if_neg hnoptr, if_neg hlen0, if_pos htotal]
    have hdrop : ((pre ++ l.length :: (l ++ ((rs.map (fun t => t.length :: t)).flatten
          ++ 0 :: post))).drop (pre.length + 1)).take l.length = l := by
      rw [show pre ++ l.length :: (l ++ ((rs.map (fun t => t.length :: t)).flatten ++ 0 :: post))
          = (pre ++ [l.length]) ++ (l ++ ((rs.map (fun t => t.length :: t)).flatten
            ++ 0 :: post)) by simp]
      rw [show pre.length + 1 = (pre ++ [l.length]).length by simp]
      rw [drop_at_len]
      exact List.take_left l ((rs.map (fun t => t.length :: t)).flatten ++ 0 :: post)
    rw [hdrop]
    have hre : pre ++ l.length :: (l ++ ((rs.map (fun t => t.length :: t)).flatten ++ 0 :: post))
        = (pre ++ l.length :: l) ++ (rs.map (fun t => t.length :: t)).flatten ++ 0 :: post := by
      simp
    have hpos : pre.length + 1 + l.length = (pre ++ l.length :: l).length := by
      simp
      omega
    rw [hre, hpos]
    rw [ih (pre ++ l.length :: l) post _ f (fun t ht => hwf t (List.mem_cons_of_mem l ht))
      (by simp only [List.length_cons] at hfuel; omega)]
    have hj : joinAcc (if acc.isEmpty then l else acc ++ 46 :: l) rs
        = joinAcc acc (l :: rs) := rfl
    rw [hj]
    have hfin : (pre ++ l.length :: l).length
          + ((rs.map (fun t => t.length :: t)).flatten).length + 1
        = pre.length + (((l :: rs).map (fun t => t.length :: t)).flatten).length + 1 := by
      simp
      omega
    rw [hfin]

/-! ## Offset-style read lemmas

Reading at cursor `i` is characterised by what `data.drop i` looks
like; this composes without re-associating the buffer. -/

theorem getElem_of_drop (data : List Nat) (i v : Nat) (rest : List Nat)
    (hd : data.drop i = v :: rest) : data[i]? = some v := by
  have h0 : (data.drop i)[0]? = data[i]? := by
    rw [List.getElem?_drop, Nat.add_zero]
  rw [← h0, hd]
  simp

theorem drop_of_drop (data : List Nat) (i : Nat) (pref rest : List Nat)
    (hd : data.drop i = pref ++ rest) : data.drop (i + pref.length) = rest := by
  rw [← List.drop_drop, hd]
  exact drop_at_len pref rest

theorem read_u8_drop (data : List Nat) (i v : Nat) (rest : List Nat)
    (hd : data.drop i = v :: rest) :
    VectorPacketBuffer.read_u8 ⟨data, i⟩ = .ok (v, ⟨data, i + 1⟩) := by
  simp only [VectorPacketBuffer.read_u8]
  rw [getElem_of_drop data i v rest hd]

theorem read_u16_drop (data : List Nat) (i v : Nat) (rest : List Nat) (hv : v < 65536)
    (hd : data.drop i = enc16 v ++ rest) :
    VectorPacketBuffer.read_u16 ⟨data, i⟩ = .ok (v, ⟨data, i + 2⟩) := by
  have h1 : data.drop i = ((v >>> 8) % 256) :: ((v % 256) :: rest) := by
    rw [hd]; rfl
  have h2 : data.drop (i + 1) = (v % 256) :: rest := by
    have := drop_of_drop data i [(v >>> 8) % 256] ((v % 256) :: rest) (by rw [h1]; rfl)
    simpa using this
  simp only [VectorPacketBuffer.read_u16, bind, Except.bind, pure, Except.pure,
    read_u8_drop data i _ _ h1, read_u8_drop data (i + 1) _ _ h2]
  have hval : ((v >>> 8) % 256) <<< 8 ||| v % 256 = v := by
    have hs : v >>> 8 = v / 256 := by rw [Nat.shiftRight_eq_div_pow]
    rw [dec16 _ _ (by omega)]
    omega
  rw [hval]

theorem read_u32_drop (data : List Nat) (i v : Nat) (rest : List Nat) (hv : v < 4294967296)
    (hd : data.drop i = enc32 v ++ rest) :
    VectorPacketBuffer.read_u32 ⟨data, i⟩ = .ok (v, ⟨data, i + 4⟩) := by
  have h1 : data.drop i = ((v >>> 24) % 256)
      :: (((v >>> 16) % 256) :: ((v >>> 8) % 256) :: (v % 256) :: rest) := by
    rw [hd]; rfl
  have h2 : data.drop (i + 1) = ((v >>> 16) % 256) :: ((v >>> 8) % 256) :: (v % 256) :: rest := by
    have := drop_of_drop data i [(v >>> 24) % 256] _ (by rw [h1]; rfl)
    simpa using this
  have h3 : data.drop (i + 2) = ((v >>> 8) % 256) :: (v % 256) :: rest := by
    have := drop_of_drop data i [(v >>> 24) % 256, (v >>> 16) % 256] _ (by rw [h1]; rfl)
    simpa using this
  have h4 : data.drop (i + 3) = (v % 256) :: rest := by
    have := drop_of_drop data i [(v >>> 24) % 256, (v >>> 16) % 256, (v >>> 8) % 256] _
      (by rw [h1]; rfl)
    simpa using this
  simp only [VectorPacketBuffer.read_u32, bind, Except.bind, pure, Except.pure,
    read_u8_drop data i _ _ h1, read_u8_drop data (i + 1) _ _ h2,
    read_u8_drop data (i + 2) _ _ h3, read_u8_drop data (i + 3) _ _ h4]
  have hval : ((v >>> 24) % 256) <<< 24 ||| ((v >>> 16) % 256) <<< 16
      ||| ((v >>> 8) % 256) <<< 8 ||| v % 256 = v := by
    have h24 : v >>> 24 = v / 16777216 := by rw [Nat.shiftRight_eq_div_pow]
    have h16 : v >>> 16 = v / 65536 := by rw [Nat.shiftRight_eq_div_pow]
    have h8 : v >>> 8 = v / 256 := by rw [Nat.shiftRight_eq_div_pow]
    rw [dec32 _ _ _ _ (by omega) (by omega) (by omega), h24, h16, h8]
    omega
  rw [hval]

theorem encQname_ne_nil (name : RStr) : encQname name ≠ [] := by
  simp [encQname]

theorem encQname_len_wf (name : RStr) (h : WfName name) :
    (encQname name).length
      = (((name.splitOn 46).map (fun l => l.length :: l)).flatten).length + 1 := by
  rw [encQname_wf name h]
  simp

theorem read_qname_drop (data : List Nat) (i : Nat) (name : RStr) (rest : List Nat)
    (h : WfName name) (hd : data.drop i = encQname name ++ rest) :
    VectorPacketBuffer.read_qname ⟨data, i⟩
      = (.ok (), name, ⟨data, i + (encQname name).length⟩) := by
  have hi : i ≤ data.length := by
    by_contra hlt
    have hnil : data.drop i = [] := List.drop_eq_nil_of_le (by omega)
    rw [hnil] at hd
    exact encQname_ne_nil name (List.append_eq_nil.mp hd.symm).1
  have hlen : (data.take i).length = i := by
    rw [List.length_take]
    omega
  have hsplit : data = data.take i
      ++ ((name.splitOn 46).map (fun l => l.length :: l)).flatten ++ 0 :: rest := by
    conv_lhs => rw [← List.take_append_drop i data]
    rw [hd, encQname_wf name h]
    simp
  have hdlen : data.length = i
      + ((((name.splitOn 46).map (fun l => l.length :: l)).flatten).length + 1)
      + rest.length := by
    conv_lhs => rw [hsplit]
    simp only [List.length_append, hlen, List.length_cons]
    omega
  have hfuel : (name.splitOn 46).length < (maxJumps + 2) * (data.length + 2) := by
    have hchunks := chunks_len_ge (name.splitOn 46)
    simp only [maxJumps]
    omega
  have hmain := readQnameAux_labels (name.splitOn 46) (data.take i) rest []
    ((maxJumps + 2) * (data.length + 2))
    (fun l hl => ⟨(h.2 l hl).1, (h.2 l hl).2.1⟩) hfuel
  rw [hlen] at hmain
  rw [← hsplit] at hmain
  simp only [VectorPacketBuffer.read_qname]
  rw [hmain]
  rw [joinAcc_nil_eq_name name h]
  simp only [Option.getD]
  rw [show i + ((((name.splitOn 46).map (fun l => l.length :: l)).flatten).length) + 1
      = i + (encQname name).length by rw [encQname_len_wf name h]; omega]

theorem enc16_len (v : Nat) : (enc16 v).length = 2 := rfl

theorem enc32_len (v : Nat) : (enc32 v).length = 4 := rfl

theorem len_flatten_dotted (rs : List (List Nat)) :
    ((rs.map (fun t => 46 :: t)).flatten).length
      = ((rs.map (fun t => t.length :: t)).flatten).length := by
  induction rs with
  | nil => rfl
  | cons t ts ih => simp [ih]

/-- The encoded form of a well-formed name takes `name.length + 2` octets. -/
theorem encQname_len_eq (name : RStr) (h : WfName name) :
    (encQname name).length = name.length + 2 := by
  rw [encQname_len_wf name h]
  have hrec : [46].intercalate (name.splitOn 46) = name := List.intercalate_splitOn name 46
  cases hls : name.splitOn 46 with
  | nil =>
    exfalso
    exact List.splitOnP_ne_nil _ name hls
  | cons l rest =>
    rw [hls] at hrec
    rw [intercalate_dot_cons] at hrec
    have hflat := len_flatten_dotted rest
    have : name.length = l.length + ((rest.map (fun t => t.length :: t)).flatten).length := by
      rw [← hrec]
      simp [hflat]
    simp only [List.map_cons, List.flatten_cons, List.length_append, List.length_cons]
    omega

theorem encQname_le (name : RStr) (h : WfName name) : (encQname name).length ≤ 255 := by
  rw [encQname_len_eq name h]
  have := h.1
  omega

theorem get_range_drop (data : List Nat) (i : Nat) (bytes rest : List Nat)
    (hi : i ≤ data.length) (hd : data.drop i = bytes ++ rest) :
    VectorPacketBuffer.get_range ⟨data, i⟩ i bytes.length = .ok bytes := by
  have hlen : (data.drop i).length = data.length - i := List.length_drop i data
  rw [hd] at hlen
  simp only [List.length_append] at hlen
  unfold VectorPacketBuffer.get_range
  rw [if_pos (by simp; omega)]
  rw [show (⟨data, i⟩ : VectorPacketBuffer).buffer.drop i = bytes ++ rest from hd]
  rw [List.take_left]

theorem and255_eq_mod (x : Nat) : x &&& 255 = x % 256 := by
  have := Nat.and_pow_two_sub_one_eq_mod x 8
  norm_num at this
  exact this

theorem and65535_eq_mod (x : Nat) : x &&& 65535 = x % 65536 := by
  have := Nat.and_pow_two_sub_one_eq_mod x 16
  norm_num at this
  exact this

theorem read_u32_bytes (data : List Nat) (i a b c d : Nat) (rest : List Nat)
    (ha : a < 256) (hb : b < 256) (hc : c < 256) (hdlt : d < 256)
    (hd : data.drop i = a :: b :: c :: d :: rest) :
    VectorPacketBuffer.read_u32 ⟨data, i⟩
      = .ok (a * 16777216 + b * 65536 + c * 256 + d, ⟨data, i + 4⟩) := by
  have hv : a * 16777216 + b * 65536 + c * 256 + d < 4294967296 := by omega
  have henc : enc32 (a * 16777216 + b * 65536 + c * 256 + d) = [a, b, c, d] := by
    simp only [enc32]
    have h24 : (a * 16777216 + b * 65536 + c * 256 + d) >>> 24
        = (a * 16777216 + b * 65536 + c * 256 + d) / 16777216 := by
      rw [Nat.shiftRight_eq_div_pow]
    have h16 : (a * 16777216 + b * 65536 + c * 256 + d) >>> 16
        = (a * 16777216 + b * 65536 + c * 256 + d) / 65536 := by
      rw [Nat.shiftRight_eq_div_pow]
    have h8 : (a * 16777216 + b * 65536 + c * 256 + d) >>> 8
        = (a * 16777216 + b * 65536 + c * 256 + d) / 256 := by
      rw [Nat.shiftRight_eq_div_pow]
    rw [h24, h16, h8]
    congr 1
    · omega
    congr 1
    · omega
    congr 1
    · omega
    congr 1
    omega
  exact read_u32_drop data i _ rest hv (by rw [henc, hd]; rfl)

theorem enc16_pair (a b : Nat) (hb : b < 65536) :
    enc16 a ++ enc16 b = enc32 (a * 65536 + b) := by
  simp only [enc16, enc32]
  have hsa : a >>> 8 = a / 256 := by rw [Nat.shiftRight_eq_div_pow]
  have hsb : b >>> 8 = b / 256 := by rw [Nat.shiftRight_eq_div_pow]
  have h24 : (a * 65536 + b) >>> 24 = (a * 65536 + b) / 16777216 := by
    rw [Nat.shiftRight_eq_div_pow]
  have h16 : (a * 65536 + b) >>> 16 = (a * 65536 + b) / 65536 := by
    rw [Nat.shiftRight_eq_div_pow]
  have h8 : (a * 65536 + b) >>> 8 = (a * 65536 + b) / 256 := by
    rw [Nat.shiftRight_eq_div_pow]
  rw [hsa, hsb, h24, h16, h8]
  simp only [List.cons_append, List.nil_append, List.cons.injEq]
  have e1 : a / 256 % 256 = (a * 65536 + b) / 16777216 % 256 := by
    have hq : (a * 65536 + b) / 16777216 = a / 256 := by omega
    rw [hq]
  have e2 : a % 256 = (a * 65536 + b) / 65536 % 256 := by
    have hq : (a * 65536 + b) / 65536 = a := by omega
    rw [hq]
  have e3 : b / 256 % 256 = (a * 65536 + b) / 256 % 256 := by
    have hq : (a * 65536 + b) / 256 = a * 256 + b / 256 := by omega
    rw [hq]
    omega
  have e4 : b % 256 = (a * 65536 + b) % 256 := by omega
  exact ⟨e1, e2, e3, e4, trivial⟩

theorem map_mod_eq_self (l : List Nat) (h : ∀ b ∈ l, b < 256) :
    l.map (fun b => b % 256) = l := by
  exact (List.map_congr_left (fun b hb => Nat.mod_eq_of_lt (h b hb))).trans (List.map_id l)

/-- Well-formed supported records: DNS-valid names, numeric fields
within their Rust wire widths, TXT payloads under 65536 octets;
`UNKNOWN` and `OPT` are not supported (the writer skips them). -/
def WfRecord : ResourceRecord → Prop
  | .A d ip ttl => WfName d ∧ ip.o1 < 256 ∧ ip.o2 < 256 ∧ ip.o3 < 256 ∧ ip.o4 < 256
      ∧ ttl < 4294967296
  | .AAAA d ip ttl => WfName d ∧ ip.s1 < 65536 ∧ ip.s2 < 65536 ∧ ip.s3 < 65536
      ∧ ip.s4 < 65536 ∧ ip.s5 < 65536 ∧ ip.s6 < 65536 ∧ ip.s7 < 65536 ∧ ip.s8 < 65536
      ∧ ttl < 4294967296
  | .NS d host ttl => WfName d ∧ WfName host ∧ ttl < 4294967296
  | .CNAME d host ttl => WfName d ∧ WfName host ∧ ttl < 4294967296
  | .SOA d mname rname serial refresh retry expire minimum ttl =>
      WfName d ∧ WfName mname ∧ WfName rname ∧ serial < 4294967296
      ∧ refresh < 4294967296 ∧ retry < 4294967296 ∧ expire < 4294967296
      ∧ minimum < 4294967296 ∧ ttl < 4294967296
  | .MX d priority host ttl => WfName d ∧ priority < 65536 ∧ WfName host ∧ ttl < 4294967296
  | .TXT d txt ttl => WfName d ∧ txt.length < 65536 ∧ (∀ b ∈ txt, b < 256) ∧ ttl < 4294967296
  | .SRV d priority weight port host ttl => WfName d ∧ priority < 65536 ∧ weight < 65536
      ∧ port < 65536 ∧ WfName host ∧ ttl < 4294967296
  | .OPT _ _ _ => False
  | .UNKNOWN _ _ _ _ => False

instance (r : ResourceRecord) : Decidable (WfRecord r) := by
  cases r <;> (unfold WfRecord; infer_instance)

theorem record_read_A (d : RStr) (ip : Ipv4Addr) (ttl : Nat)
    (hr : WfRecord (.A d ip ttl)) (data : List Nat) (i : Nat) (rest : List Nat)
    (hd : data.drop i = encRecord (.A d ip ttl) ++ rest) :
    ResourceRecord.read ⟨data, i⟩
      = .ok (.A d ip ttl, ⟨data, i + (encRecord (.A d ip ttl)).length⟩) := by
  obtain ⟨hwd, h1, h2, h3, h4, httl⟩ := hr
  have hd0 : data.drop i = encQname d ++ (enc16 1 ++ (enc16 1 ++ (enc32 ttl
      ++ (enc16 4 ++ (ip.o1 :: ip.o2 :: ip.o3 :: ip.o4 :: rest))))) := by
    rw [hd]
    simp only [encRecord]
    rw [Nat.mod_eq_of_lt h1, Nat.mod_eq_of_lt h2, Nat.mod_eq_of_lt h3, Nat.mod_eq_of_lt h4]
    simp
  have e0 := read_qname_drop data i d _ hwd hd0
  have hd1 := drop_of_drop data i (encQname d) _ hd0
  have e1 := read_u16_drop data (i + (encQname d).length) 1 _ (by omega) hd1
  have hd2 := drop_of_drop data (i + (encQname d).length) (enc16 1) _ hd1
  rw [enc16_len] at hd2
  have e2 := read_u16_drop data (i + (encQname d).length + 2) 1 _ (by omega) hd2
  have hd3 := drop_of_drop data (i + (encQname d).length + 2) (enc16 1) _ hd2
  rw [enc16_len] at hd3
  have e3 := read_u32_drop data (i + (encQname d).length + 2 + 2) ttl _ httl hd3
  have hd4 := drop_of_drop data (i + (encQname d).length + 2 + 2) (enc32 ttl) _ hd3
  rw [enc32_len] at hd4
  have e4 := read_u16_drop data (i + (encQname d).length + 2 + 2 + 4) 4 _ (by omega) hd4
  have hd5 := drop_of_drop data (i + (encQname d).length + 2 + 2 + 4) (enc16 4) _ hd4
  rw [enc16_len] at hd5
  have e5 := read_u32_bytes data (i + (encQname d).length + 2 + 2 + 4 + 2)
    ip.o1 ip.o2 ip.o3 ip.o4 rest h1 h2 h3 h4 hd5
  have hq : QueryType.from_num 1 = QueryType.A := rfl
  have hip : Ipv4Addr.mk
      (((ip.o1 * 16777216 + ip.o2 * 65536 + ip.o3 * 256 + ip.o4) >>> 24) &&& 255)
      (((ip.o1 * 16777216 + ip.o2 * 65536 + ip.o3 * 256 + ip.o4) >>> 16) &&& 255)
      (((ip.o1 * 16777216 + ip.o2 * 65536 + ip.o3 * 256 + ip.o4) >>> 8) &&& 255)
      (((ip.o1 * 16777216 + ip.o2 * 65536 + ip.o3 * 256 + ip.o4) >>> 0) &&& 255) = ip := by
    have s24 : (ip.o1 * 16777216 + ip.o2 * 65536 + ip.o3 * 256 + ip.o4) >>> 24
        = (ip.o1 * 16777216 + ip.o2 * 65536 + ip.o3 * 256 + ip.o4) / 16777216 := by
      rw [Nat.shiftRight_eq_div_pow]
    have s16 : (ip.o1 * 16777216 + ip.o2 * 65536 + ip.o3 * 256 + ip.o4) >>> 16
        = (ip.o1 * 16777216 + ip.o2 * 65536 + ip.o3 * 256 + ip.o4) / 65536 := by
      rw [Nat.shiftRight_eq_div_pow]
    have s8 : (ip.o1 * 16777216 + ip.o2 * 65536 + ip.o3 * 256 + ip.o4) >>> 8
        = (ip.o1 * 16777216 + ip.o2 * 65536 + ip.o3 * 256 + ip.o4) / 256 := by
      rw [Nat.shiftRight_eq_div_pow]
    have s0 : (ip.o1 * 16777216 + ip.o2 * 65536 + ip.o3 * 256 + ip.o4) >>> 0
        = ip.o1 * 16777216 + ip.o2 * 65536 + ip.o3 * 256 + ip.o4 := Nat.shiftRight_zero
    rw [s24, s16, s8, s0, and255_eq_mod, and255_eq_mod, and255_eq_mod, and255_eq_mod]
    cases ip with
    | mk o1 o2 o3 o4 =>
      simp only [Ipv4Addr.mk.injEq] at h1 h2 h3 h4 ⊢
      refine ⟨by omega, by omega, by omega, by omega⟩
  simp only [ResourceRecord.read, bind, Except.bind, pure, Except.pure, e0, e1, e2, e3, e4,
    hq, e5, hip]
  have hlen : (encRecord (.A d ip ttl)).length = (encQname d).length + 14 := by
    simp [encRecord, enc16, enc32]
  rw [show i + (encQname d).length + 2 + 2 + 4 + 2 + 4
      = i + (encRecord (.A d ip ttl)).length by rw [hlen]; omega]

theorem record_read_NS (d host : RStr) (ttl : Nat)
    (hr : WfRecord (.NS d host ttl)) (data : List Nat) (i : Nat) (rest : List Nat)
    (hd : data.drop i = encRecord (.NS d host ttl) ++ rest) :
    ResourceRecord.read ⟨data, i⟩
      = .ok (.NS d host ttl, ⟨data, i + (encRecord (.NS d host ttl)).length⟩) := by
  obtain ⟨hwd, hwh, httl⟩ := hr
  have hd0 : data.drop i = encQname d ++ (enc16 2 ++ (enc16 1 ++ (enc32 ttl
      ++ (enc16 (encQname host).length ++ (encQname host ++ rest))))) := by
    rw [hd]
    simp [encRecord]
  have e0 := read_qname_drop data i d _ hwd hd0
  have hd1 := drop_of_drop data i (encQname d) _ hd0
  have e1 := read_u16_drop data (i + (encQname d).length) 2 _ (by omega) hd1
  have hd2 := drop_of_drop data (i + (encQname d).length) (enc16 2) _ hd1
  rw [enc16_len] at hd2
  have e2 := read_u16_drop data (i + (encQname d).length + 2) 1 _ (by omega) hd2
  have hd3 := drop_of_drop data (i + (encQname d).length + 2) (enc16 1) _ hd2
  rw [enc16_len] at hd3
  have e3 := read_u32_drop data (i + (encQname d).length + 2 + 2) ttl _ httl hd3
  have hd4 := drop_of_drop data (i + (encQname d).length + 2 + 2) (enc32 ttl) _ hd3
  rw [enc32_len] at hd4
  have e4 := read_u16_drop data (i + (encQname d).length + 2 + 2 + 4) (encQname host).length _
    (by have := encQname_le host hwh; omega) hd4
  have hd5 := drop_of_drop data (i + (encQname d).length + 2 + 2 + 4)
    (enc16 (encQname host).length) _ hd4
  rw [enc16_len] at hd5
  have e5 := read_qname_drop data (i + (encQname d).length + 2 + 2 + 4 + 2) host rest hwh hd5
  have hq : QueryType.from_num 2 = QueryType.NS := rfl
  simp only [ResourceRecord.read, bind, Except.bind, pure, Except.pure, e0, e1, e2, e3, e4,
    hq, e5]
  have hlen : (encRecord (.NS d host ttl)).length
      = (encQname d).length + 10 + (encQname host).length := by
    simp [encRecord, enc16, enc32]
    omega
  rw [show i + (encQname d).length + 2 + 2 + 4 + 2 + (encQname host).length
      = i + (encRecord (.NS d host ttl)).length by rw [hlen]; omega]

theorem record_read_CNAME (d host : RStr) (ttl : Nat)
    (hr : WfRecord (.CNAME d host ttl)) (data : List Nat) (i : Nat) (rest : List Nat)
    (hd : data.drop i = encRecord (.CNAME d host ttl) ++ rest) :
    ResourceRecord.read ⟨data, i⟩
      = .ok (.CNAME d host ttl, ⟨data, i + (encRecord (.CNAME d host ttl)).length⟩) := by
  obtain ⟨hwd, hwh, httl⟩ := hr
  have hd0 : data.drop i = encQname d ++ (enc16 5 ++ (enc16 1 ++ (enc32 ttl
      ++ (enc16 (encQname host).length ++ (encQname host ++ rest))))) := by
    rw [hd]
    simp [encRecord]
  have e0 := read_qname_drop data i d _ hwd hd0
  have hd1 := drop_of_drop data i (encQname d) _ hd0
  have e1 := read_u16_drop data (i + (encQname d).length) 5 _ (by omega) hd1
  have hd2 := drop_of_drop data (i + (encQname d).length) (enc16 5) _ hd1
  rw [enc16_len] at hd2
  have e2 := read_u16_drop data (i + (encQname d).length + 2) 1 _ (by omega) hd2
  have hd3 := drop_of_drop data (i + (encQname d).length + 2) (enc16 1) _ hd2
  rw [enc16_len] at hd3
  have e3 := read_u32_drop data (i + (encQname d).length + 2 + 2) ttl _ httl hd3
  have hd4 := drop_of_drop data (i + (encQname d).length + 2 + 2) (enc32 ttl) _ hd3
  rw [enc32_len] at hd4
  have e4 := read_u16_drop data (i + (encQname d).length + 2 + 2 + 4) (encQname host).length _
    (by have := encQname_le host hwh; omega) hd4
  have hd5 := drop_of_drop data (i + (encQname d).length + 2 + 2 + 4)
    (enc16 (encQname host).length) _ hd4
  rw [enc16_len] at hd5
  have e5 := read_qname_drop data (i + (encQname d).length + 2 + 2 + 4 + 2) host rest hwh hd5
  have hq : QueryType.from_num 5 = QueryType.CNAME := rfl
  simp only [ResourceRecord.read, bind, Except.bind, pure, Except.pure, e0, e1, e2, e3, e4,
    hq, e5]
  have hlen : (encRecord (.CNAME d host ttl)).length
      = (encQname d).length + 10 + (encQname host).length := by
    simp [encRecord, enc16, enc32]
    omega
  rw [show i + (encQname d).length + 2 + 2 + 4 + 2 + (encQname host).length
      = i + (encRecord (.CNAME d host ttl)).length by rw [hlen]; omega]

theorem record_read_MX (d : RStr) (priority : Nat) (host : RStr) (ttl : Nat)
    (hr : WfRecord (.MX d priority host ttl)) (data : List Nat) (i : Nat) (rest : List Nat)
    (hd : data.drop i = encRecord (.MX d priority host ttl) ++ rest) :
    ResourceRecord.read ⟨data, i⟩
      = .ok (.MX d priority host ttl, ⟨data, i + (encRecord (.MX d priority host ttl)).length⟩) := by
  obtain ⟨hwd, hp, hwh, httl⟩ := hr
  have hd0 : data.drop i = encQname d ++ (enc16 15 ++ (enc16 1 ++ (enc32 ttl
      ++ (enc16 (2 + (encQname host).length) ++ (enc16 priority
        ++ (encQname host ++ rest)))))) := by
    rw [hd]
    simp [encRecord]
  have e0 := read_qname_drop data i d _ hwd hd0
  have hd1 := drop_of_drop data i (encQname d) _ hd0
  have e1 := read_u16_drop data (i + (encQname d).length) 15 _ (by omega) hd1
  have hd2 := drop_of_drop data (i + (encQname d).length) (enc16 15) _ hd1
  rw [enc16_len] at hd2
  have e2 := read_u16_drop data (i + (encQname d).length + 2) 1 _ (by omega) hd2
  have hd3 := drop_of_drop data (i + (encQname d).length + 2) (enc16 1) _ hd2
  rw [enc16_len] at hd3
  have e3 := read_u32_drop data (i + (encQname d).length + 2 + 2) ttl _ httl hd3
  have hd4 := drop_of_drop data (i + (encQname d).length + 2 + 2) (enc32 ttl) _ hd3
  rw [enc32_len] at hd4
  have e4 := read_u16_drop data (i + (encQname d).length + 2 + 2 + 4)
    (2 + (encQname host).length) _ (by have := encQname_le host hwh; omega) hd4
  have hd5 := drop_of_drop data (i + (encQname d).length + 2 + 2 + 4)
    (enc16 (2 + (encQname host).length)) _ hd4
  rw [enc16_len] at hd5
  have e5 := read_u16_drop data (i + (encQname d).length + 2 + 2 + 4 + 2) priority _ hp hd5
  have hd6 := drop_of_drop data (i + (encQname d).length + 2 + 2 + 4 + 2) (enc16 priority) _ hd5
  rw [enc16_len] at hd6
  have e6 := read_qname_drop data (i + (encQname d).length + 2 + 2 + 4 + 2 + 2) host rest hwh hd6
  have hq : QueryType.from_num 15 = QueryType.MX := rfl
  simp only [ResourceRecord.read, bind, Except.bind, pure, Except.pure, e0, e1, e2, e3, e4,
    hq, e5, e6]
  have hlen : (encRecord (.MX d priority host ttl)).length
      = (encQname d).length + 12 + (encQname host).length := by
    simp [encRecord, enc16, enc32]
    omega
  rw [show i + (encQname d).length + 2 + 2 + 4 + 2 + 2 + (encQname host).length
      = i + (encRecord (.MX d priority host ttl)).length by rw [hlen]; omega]

theorem record_read_SRV (d : RStr) (priority weight port : Nat) (host : RStr) (ttl : Nat)
    (hr : WfRecord (.SRV d priority weight port host ttl)) (data : List Nat) (i : Nat)
    (rest : List Nat)
    (hd : data.drop i = encRecord (.SRV d priority weight port host ttl) ++ rest) :
    ResourceRecord.read ⟨data, i⟩
      = .ok (.SRV d priority weight port host ttl,
          ⟨data, i + (encRecord (.SRV d priority weight port host ttl)).length⟩) := by
  obtain ⟨hwd, hp, hw, hpo, hwh, httl⟩ := hr
  have hd0 : data.drop i = encQname d ++ (enc16 33 ++ (enc16 1 ++ (enc32 ttl
      ++ (enc16 (6 + (encQname host).length) ++ (enc16 priority ++ (enc16 weight
        ++ (enc16 port ++ (encQname host ++ rest)))))))) := by
    rw [hd]
    simp [encRecord]
  have e0 := read_qname_drop data i d _ hwd hd0
  have hd1 := drop_of_drop data i (encQname d) _ hd0
  have e1 := read_u16_drop data (i + (encQname d).length) 33 _ (by omega) hd1
  have hd2 := drop_of_drop data (i + (encQname d).length) (enc16 33) _ hd1
  rw [enc16_len] at hd2
  have e2 := read_u16_drop data (i + (encQname d).length + 2) 1 _ (by omega) hd2
  have hd3 := drop_of_drop data (i + (encQname d).length + 2) (enc16 1) _ hd2
  rw [enc16_len] at hd3
  have e3 := read_u32_drop data (i + (encQname d).length + 2 + 2) ttl _ httl hd3
  have hd4 := drop_of_drop data (i + (encQname d).length + 2 + 2) (enc32 ttl) _ hd3
  rw [enc32_len] at hd4
  have e4 := read_u16_drop data (i + (encQname d).length + 2 + 2 + 4)
    (6 + (encQname host).length) _ (by have := encQname_le host hwh; omega) hd4
  have hd5 := drop_of_drop data (i + (encQname d).length + 2 + 2 + 4)
    (enc16 (6 + (encQname host).length)) _ hd4
  rw [enc16_len] at hd5
  have e5 := read_u16_drop data (i + (encQname d).length + 2 + 2 + 4 + 2) priority _ hp hd5
  have hd6 := drop_of_drop data (i + (encQname d).length + 2 + 2 + 4 + 2) (enc16 priority) _ hd5
  rw [enc16_len] at hd6
  have e6 := read_u16_drop data (i + (encQname d).length + 2 + 2 + 4 + 2 + 2) weight _ hw hd6
  have hd7 := drop_of_drop data (i + (encQname d).length + 2 + 2 + 4 + 2 + 2)
    (enc16 weight) _ hd6
  rw [enc16_len] at hd7
  have e7 := read_u16_drop data (i + (encQname d).length + 2 + 2 + 4 + 2 + 2 + 2) port _ hpo hd7
  have hd8 := drop_of_drop data (i + (encQname d).length + 2 + 2 + 4 + 2 + 2 + 2)
    (enc16 port) _ hd7
  rw [enc16_len] at hd8
  have e8 := read_qname_drop data (i + (encQname d).length + 2 + 2 + 4 + 2 + 2 + 2 + 2)
    host rest hwh hd8
  have hq : QueryType.from_num 33 = QueryType.SRV := rfl
  simp only [ResourceRecord.read, bind, Except.bind, pure, Except.pure, e0, e1, e2, e3, e4,
    hq, e5, e6, e7, e8]
  have hlen : (encRecord (.SRV d priority weight port host ttl)).length
      = (encQname d).length + 16 + (encQname host).length := by
    simp [encRecord, enc16, enc32]
    omega
  rw [show i + (encQname d).length + 2 + 2 + 4 + 2 + 2 + 2 + 2 + (encQname host).length
      = i + (encRecord (.SRV d priority weight port host ttl)).length by rw [hlen]; omega]

theorem record_read_SOA (d mname rname : RStr)
    (serial refresh retry expire minimum ttl : Nat)
    (hr : WfRecord (.SOA d mname rname serial refresh retry expire minimum ttl))
    (data : List Nat) (i : Nat) (rest : List Nat)
    (hd : data.drop i
      = encRecord (.SOA d mname rname serial refresh retry expire minimum ttl) ++ rest) :
    ResourceRecord.read ⟨data, i⟩
      = .ok (.SOA d mname rname serial refresh retry expire minimum ttl,
          ⟨data, i + (encRecord (.SOA d mname rname serial refresh retry expire
            minimum ttl)).length⟩) := by
  obtain ⟨hwd, hwm, hwr, hse, hre, hrt, hex, hmi, httl⟩ := hr
  have hd0 : data.drop i = encQname d ++ (enc16 6 ++ (enc16 1 ++ (enc32 ttl
      ++ (enc16 ((encQname mname).length + (encQname rname).length + 20)
        ++ (encQname mname ++ (encQname rname ++ (enc32 serial ++ (enc32 refresh
          ++ (enc32 retry ++ (enc32 expire ++ (enc32 minimum ++ rest))))))))))) := by
    rw [hd]
    simp [encRecord]
  have e0 := read_qname_drop data i d _ hwd hd0
  have hd1 := drop_of_drop data i (encQname d) _ hd0
  have e1 := read_u16_drop data (i + (encQname d).length) 6 _ (by omega) hd1
  have hd2 := drop_of_drop data (i + (encQname d).length) (enc16 6) _ hd1
  rw [enc16_len] at hd2
  have e2 := read_u16_drop data (i + (encQname d).length + 2) 1 _ (by omega) hd2
  have hd3 := drop_of_drop data (i + (encQname d).length + 2) (enc16 1) _ hd2
  rw [enc16_len] at hd3
  have e3 := read_u32_drop data (i + (encQname d).length + 2 + 2) ttl _ httl hd3
  have hd4 := drop_of_drop data (i + (encQname d).length + 2 + 2) (enc32 ttl) _ hd3
  rw [enc32_len] at hd4
  have e4 := read_u16_drop data (i + (encQname d).length + 2 + 2 + 4)
    ((encQname mname).length + (encQname rname).length + 20) _
    (by have := encQname_le mname hwm; have := encQname_le rname hwr; omega) hd4
  have hd5 := drop_of_drop data (i + (encQname d).length + 2 + 2 + 4)
    (enc16 ((encQname mname).length + (encQname rname).length + 20)) _ hd4
  rw [enc16_len] at hd5
  have e5 := read_qname_drop data (i + (encQname d).length + 2 + 2 + 4 + 2) mname _ hwm hd5
  have hd6 := drop_of_drop data (i + (encQname d).length + 2 + 2 + 4 + 2)
    (encQname mname) _ hd5
  have e6 := read_qname_drop data (i + (encQname d).length + 2 + 2 + 4 + 2
    + (encQname mname).length) rname _ hwr hd6
  have hd7 := drop_of_drop data (i + (encQname d).length + 2 + 2 + 4 + 2
    + (encQname mname).length) (encQname rname) _ hd6
  have e7 := read_u32_drop data (i + (encQname d).length + 2 + 2 + 4 + 2
    + (encQname mname).length + (encQname rname).length) serial _ hse hd7
  have hd8 := drop_of_drop data (i + (encQname d).length + 2 + 2 + 4 + 2
    + (encQname mname).length + (encQname rname).length) (enc32 serial) _ hd7
  rw [enc32_len] at hd8
  have e8 := read_u32_drop data (i + (encQname d).length + 2 + 2 + 4 + 2
    + (encQname mname).length + (encQname rname).length + 4) refresh _ hre hd8
  have hd9 := drop_of_drop data (i + (encQname d).length + 2 + 2 + 4 + 2
    + (encQname mname).length + (encQname rname).length + 4) (enc32 refresh) _ hd8
  rw [enc32_len] at hd9
  have e9 := read_u32_drop data (i + (encQname d).length + 2 + 2 + 4 + 2
    + (encQname mname).length + (encQname rname).length + 4 + 4) retry _ hrt hd9
  have hd10 := drop_of_drop data (i + (encQname d).length + 2 + 2 + 4 + 2
    + (encQname mname).length + (encQname rname).length + 4 + 4) (enc32 retry) _ hd9
  rw [enc32_len] at hd10
  have e10 := read_u32_drop data (i + (encQname d).length + 2 + 2 + 4 + 2
    + (encQname mname).length + (encQname rname).length + 4 + 4 + 4) expire _ hex hd10
  have hd11 := drop_of_drop data (i + (encQname d).length + 2 + 2 + 4 + 2
    + (encQname mname).length + (encQname rname).length + 4 + 4 + 4) (enc32 expire) _ hd10
  rw [enc32_len] at hd11
  have e11 := read_u32_drop data (i + (encQname d).length + 2 + 2 + 4 + 2
    + (encQname mname).length + (encQname rname).length + 4 + 4 + 4 + 4) minimum _ hmi hd11
  have hq : QueryType.from_num 6 = QueryType.SOA := rfl
  simp only [ResourceRecord.read, bind, Except.bind, pure, Except.pure, e0, e1, e2, e3, e4,
    hq, e5, e6, e7, e8, e9, e10, e11]
  have hlen : (encRecord (.SOA d mname rname serial refresh retry expire minimum ttl)).length
      = (encQname d).length + 30 + (encQname mname).length + (encQname rname).length := by
    simp [encRecord, enc16, enc32]
    omega
  rw [show i + (encQname d).length + 2 + 2 + 4 + 2 + (encQname mname).length
        + (encQname rname).length + 4 + 4 + 4 + 4 + 4
      = i + (encRecord (.SOA d mname rname serial refresh retry expire minimum ttl)).length
      by rw [hlen]; omega]

theorem record_read_TXT (d txt : RStr) (ttl : Nat)
    (hr : WfRecord (.TXT d txt ttl)) (data : List Nat) (i : Nat) (rest : List Nat)
    (hd : data.drop i = encRecord (.TXT d txt ttl) ++ rest) :
    ResourceRecord.read ⟨data, i⟩
      = .ok (.TXT d txt ttl, ⟨data, i + (encRecord (.TXT d txt ttl)).length⟩) := by
  obtain ⟨hwd, hlt, htb, httl⟩ := hr
  have hd0 : data.drop i = encQname d ++ (enc16 16 ++ (enc16 1 ++ (enc32 ttl
      ++ (enc16 txt.length ++ (txt ++ rest))))) := by
    rw [hd]
    simp only [encRecord]
    rw [map_mod_eq_self txt htb]
    simp
  have e0 := read_qname_drop data i d _ hwd hd0
  have hd1 := drop_of_drop data i (encQname d) _ hd0
  have e1 := read_u16_drop data (i + (encQname d).length) 16 _ (by omega) hd1
  have hd2 := drop_of_drop data (i + (encQname d).length) (enc16 16) _ hd1
  rw [enc16_len] at hd2
  have e2 := read_u16_drop data (i + (encQname d).length + 2) 1 _ (by omega) hd2
  have hd3 := drop_of_drop data (i + (encQname d).length + 2) (enc16 1) _ hd2
  rw [enc16_len] at hd3
  have e3 := read_u32_drop data (i + (encQname d).length + 2 + 2) ttl _ httl hd3
  have hd4 := drop_of_drop data (i + (encQname d).length + 2 + 2) (enc32 ttl) _ hd3
  rw [enc32_len] at hd4
  have e4 := read_u16_drop data (i + (encQname d).length + 2 + 2 + 4) txt.length _ hlt hd4
  have hd5 := drop_of_drop data (i + (encQname d).length + 2 + 2 + 4) (enc16 txt.length) _ hd4
  rw [enc16_len] at hd5
  have hi5 : i + (encQname d).length + 2 + 2 + 4 + 2 ≤ data.length := by
    have hld : (data.drop (i + (encQname d).length + 2 + 2 + 4)).length
        = data.length - (i + (encQname d).length + 2 + 2 + 4) := List.length_drop _ _
    rw [hd4] at hld
    simp only [List.length_append, enc16_len] at hld
    omega
  have e5 := get_range_drop data (i + (encQname d).length + 2 + 2 + 4 + 2) txt rest hi5 hd5
  have hq : QueryType.from_num 16 = QueryType.TXT := rfl
  simp only [ResourceRecord.read, bind, Except.bind, pure, Except.pure, e0, e1, e2, e3, e4,
    hq, e5, VectorPacketBuffer.step]
  have hlen : (encRecord (.TXT d txt ttl)).length
      = (encQname d).length + 10 + txt.length := by
    simp [encRecord, enc16, enc32]
    omega
  rw [show i + (encQname d).length + 2 + 2 + 4 + 2 + txt.length
      = i + (encRecord (.TXT d txt ttl)).length by rw [hlen]; omega]

theorem record_read_AAAA (d : RStr) (ip : Ipv6Addr) (ttl : Nat)
    (hr : WfRecord (.AAAA d ip ttl)) (data : List Nat) (i : Nat) (rest : List Nat)
    (hd : data.drop i = encRecord (.AAAA d ip ttl) ++ rest) :
    ResourceRecord.read ⟨data, i⟩
      = .ok (.AAAA d ip ttl, ⟨data, i + (encRecord (.AAAA d ip ttl)).length⟩) := by
  obtain ⟨hwd, h1, h2, h3, h4, h5, h6, h7, h8, httl⟩ := hr
  have hd0 : data.drop i = encQname d ++ (enc16 28 ++ (enc16 1 ++ (enc32 ttl
      ++ (enc16 16 ++ (enc32 (ip.s1 * 65536 + ip.s2) ++ (enc32 (ip.s3 * 65536 + ip.s4)
        ++ (enc32 (ip.s5 * 65536 + ip.s6) ++ (enc32 (ip.s7 * 65536 + ip.s8)
          ++ rest)))))))) := by
    rw [hd]
    rw [← enc16_pair ip.s1 ip.s2 h2, ← enc16_pair ip.s3 ip.s4 h4,
      ← enc16_pair ip.s5 ip.s6 h6, ← enc16_pair ip.s7 ip.s8 h8]
    simp [encRecord]
  have e0 := read_qname_drop data i d _ hwd hd0
  have hd1 := drop_of_drop data i (encQname d) _ hd0
  have e1 := read_u16_drop data (i + (encQname d).length) 28 _ (by omega) hd1
  have hd2 := drop_of_drop data (i + (encQname d).length) (enc16 28) _ hd1
  rw [enc16_len] at hd2
  have e2 := read_u16_drop data (i + (encQname d).length + 2) 1 _ (by omega) hd2
  have hd3 := drop_of_drop data (i + (encQname d).length + 2) (enc16 1) _ hd2
  rw [enc16_len] at hd3
  have e3 := read_u32_drop data (i + (encQname d).length + 2 + 2) ttl _ httl hd3
  have hd4 := drop_of_drop data (i + (encQname d).length + 2 + 2) (enc32 ttl) _ hd3
  rw [enc32_len] at hd4
  have e4 := read_u16_drop data (i + (encQname d).length + 2 + 2 + 4) 16 _ (by omega) hd4
  have hd5 := drop_of_drop data (i + (encQname d).length + 2 + 2 + 4) (enc16 16) _ hd4
  rw [enc16_len] at hd5
  have e5 := read_u32_drop data (i + (encQname d).length + 2 + 2 + 4 + 2)
    (ip.s1 * 65536 + ip.s2) _ (by omega) hd5
  have hd6 := drop_of_drop data (i + (encQname d).length + 2 + 2 + 4 + 2)
    (enc32 (ip.s1 * 65536 + ip.s2)) _ hd5
  rw [enc32_len] at hd6
  have e6 := read_u32_drop data (i + (encQname d).length + 2 + 2 + 4 + 2 + 4)
    (ip.s3 * 65536 + ip.s4) _ (by omega) hd6
  have hd7 := drop_of_drop data (i + (encQname d).length + 2 + 2 + 4 + 2 + 4)
    (enc32 (ip.s3 * 65536 + ip.s4)) _ hd6
  rw [enc32_len] at hd7
  have e7 := read_u32_drop data (i + (encQname d).length + 2 + 2 + 4 + 2 + 4 + 4)
    (ip.s5 * 65536 + ip.s6) _ (by omega) hd7
  have hd8 := drop_of_drop data (i + (encQname d).length + 2 + 2 + 4 + 2 + 4 + 4)
    (enc32 (ip.s5 * 65536 + ip.s6)) _ hd7
  rw [enc32_len] at hd8
  have e8 := read_u32_drop data (i + (encQname d).length + 2 + 2 + 4 + 2 + 4 + 4 + 4)
    (ip.s7 * 65536 + ip.s8) _ (by omega) hd8
  have hq : QueryType.from_num 28 = QueryType.AAAA := rfl
  have hseg : ∀ a b : Nat, a < 65536 → b < 65536 →
      ((a * 65536 + b) >>> 16) &&& 65535 = a
        ∧ ((a * 65536 + b) >>> 0) &&& 65535 = b := by
    intro a b ha hb
    have hs : (a * 65536 + b) >>> 16 = (a * 65536 + b) / 65536 := by
      rw [Nat.shiftRight_eq_div_pow]
    have hz : (a * 65536 + b) >>> 0 = a * 65536 + b := Nat.shiftRight_zero
    rw [hs, hz, and65535_eq_mod, and65535_eq_mod]
    constructor <;> omega
  have hip : Ipv6Addr.mk
      (((ip.s1 * 65536 + ip.s2) >>> 16) &&& 65535) (((ip.s1 * 65536 + ip.s2) >>> 0) &&& 65535)
      (((ip.s3 * 65536 + ip.s4) >>> 16) &&& 65535) (((ip.s3 * 65536 + ip.s4) >>> 0) &&& 65535)
      (((ip.s5 * 65536 + ip.s6) >>> 16) &&& 65535) (((ip.s5 * 65536 + ip.s6) >>> 0) &&& 65535)
      (((ip.s7 * 65536 + ip.s8) >>> 16) &&& 65535) (((ip.s7 * 65536 + ip.s8) >>> 0) &&& 65535)
      = ip := by
    obtain ⟨q1, q2⟩ := hseg ip.s1 ip.s2 h1 h2
    obtain ⟨q3, q4⟩ := hseg ip.s3 ip.s4 h3 h4
    obtain ⟨q5, q6⟩ := hseg ip.s5 ip.s6 h5 h6
    obtain ⟨q7, q8⟩ := hseg ip.s7 ip.s8 h7 h8
    rw [q1, q2, q3, q4, q5, q6, q7, q8]
  simp only [ResourceRecord.read, bind, Except.bind, pure, Except.pure, e0, e1, e2, e3, e4,
    hq, e5, e6, e7, e8, hip]
  have hlen : (encRecord (.AAAA d ip ttl)).length = (encQname d).length + 26 := by
    simp [encRecord, enc16, enc32]
  rw [show i + (encQname d).length + 2 + 2 + 4 + 2 + 4 + 4 + 4 + 4
      = i + (encRecord (.AAAA d ip ttl)).length by rw [hlen]; omega]

theorem record_read_drop (r : ResourceRecord) (hr : WfRecord r) (data : List Nat) (i : Nat)
    (rest : List Nat) (hd : data.drop i = encRecord r ++ rest) :
    ResourceRecord.read ⟨data, i⟩ = .ok (r, ⟨data, i + (encRecord r).length⟩) := by
  cases r with
  | A d ip ttl => exact record_read_A d ip ttl hr data i rest hd
  | AAAA d ip ttl => exact record_read_AAAA d ip ttl hr data i rest hd
  | NS d host ttl => exact record_read_NS d host ttl hr data i rest hd
  | CNAME d host ttl => exact record_read_CNAME d host ttl hr data i rest hd
  | MX d priority host ttl => exact record_read_MX d priority host ttl hr data i rest hd
  | SRV d priority weight port host ttl =>
    exact record_read_SRV d priority weight port host ttl hr data i rest hd
  | SOA d mname rname serial refresh retry expire minimum ttl =>
    exact record_read_SOA d mname rname serial refresh retry expire minimum ttl hr data i rest hd
  | TXT d txt ttl => exact record_read_TXT d txt ttl hr data i rest hd
  | OPT a b c => exact hr.elim
  | UNKNOWN a b c dl => exact hr.elim

/-- A well-formed question: DNS-valid name and a query type that
survives the numeric round trip (not `UNKNOWN` carrying a supported
code, numeric value within u16). -/
def WfQuestion (q : DnsQuestion) : Prop :=
  WfName q.name ∧ q.qtype.to_num < 65536 ∧ QueryType.from_num q.qtype.to_num = q.qtype

instance (q : DnsQuestion) : Decidable (WfQuestion q) := by
  unfold WfQuestion
  infer_instance

theorem question_read_drop (q : DnsQuestion) (hq : WfQuestion q) (data : List Nat) (i : Nat)
    (rest : List Nat) (hd : data.drop i = encQuestion q ++ rest) :
    DnsQuestion.read (DnsQuestion.new [] (.UNKNOWN 0)) ⟨data, i⟩
      = .ok (q, ⟨data, i + (encQuestion q).length⟩) := by
  obtain ⟨hwn, hnum, hcanon⟩ := hq
  have hd0 : data.drop i = encQname q.name ++ (enc16 q.qtype.to_num ++ (enc16 1 ++ rest)) := by
    rw [hd]
    simp [encQuestion]
  have e0 := read_qname_drop data i q.name _ hwn hd0
  have hd1 := drop_of_drop data i (encQname q.name) _ hd0
  have e1 := read_u16_drop data (i + (encQname q.name).length) q.qtype.to_num _ hnum hd1
  have hd2 := drop_of_drop data (i + (encQname q.name).length) (enc16 q.qtype.to_num) _ hd1
  rw [enc16_len] at hd2
  have e2 := read_u16_drop data (i + (encQname q.name).length + 2) 1 _ (by omega) hd2
  simp only [DnsQuestion.read, DnsQuestion.new, bind, Except.bind, pure, Except.pure,
    e0, e1, e2, hcanon]
  have hlen : (encQuestion q).length = (encQname q.name).length + 4 := by
    simp [encQuestion, enc16]
  rw [show i + (encQname q.name).length + 2 + 2 = i + (encQuestion q).length
    by rw [hlen]; omega]
  rw [show ({ name := [] ++ q.name, qtype := q.qtype } : DnsQuestion) = q by simp]

theorem read_u16_two (data : List Nat) (i x y : Nat) (rest : List Nat)
    (hd : data.drop i = x :: y :: rest) :
    VectorPacketBuffer.read_u16 ⟨data, i⟩ = .ok ((x <<< 8) ||| y, ⟨data, i + 2⟩) := by
  have h2 : data.drop (i + 1) = y :: rest := by
    have := drop_of_drop data i [x] (y :: rest) (by rw [hd]; rfl)
    simpa using this
  simp only [VectorPacketBuffer.read_u16, bind, Except.bind, pure, Except.pure,
    read_u8_drop data i _ _ hd, read_u8_drop data (i + 1) _ _ h2]

theorem header_read_counts (g h : DnsHeader) (data : List Nat) (i : Nat) (rest : List Nat)
    (hq : h.questions < 65536) (han : h.answers < 65536)
    (hau : h.authoritative_entries < 65536) (hre : h.resource_entries < 65536)
    (hd : data.drop i = encHeader h ++ rest) :
    ∃ h2, DnsHeader.read g ⟨data, i⟩ = .ok (h2, ⟨data, i + 12⟩)
      ∧ h2.questions = h.questions ∧ h2.answers = h.answers
      ∧ h2.authoritative_entries = h.authoritative_entries
      ∧ h2.resource_entries = h.resource_entries := by
  have hd0 : data.drop i = ((h.id >>> 8) % 256) :: ((h.id % 256)
      :: ((flagsHi h % 256) :: ((flagsLo h % 256)
        :: (enc16 h.questions ++ (enc16 h.answers ++ (enc16 h.authoritative_entries
          ++ (enc16 h.resource_entries ++ rest))))))) := by
    rw [hd]
    simp [encHeader, enc16]
  have e0 := read_u16_two data i _ _ _ hd0
  have hd1 := drop_of_drop data i [(h.id >>> 8) % 256, h.id % 256] _ (by rw [hd0]; rfl)
  simp only [List.length_cons, List.length_nil] at hd1
  have e1 := read_u16_two data (i + 2) _ _ _ hd1
  have hd2 := drop_of_drop data (i + 2) [flagsHi h % 256, flagsLo h % 256] _ (by rw [hd1]; rfl)
  simp only [List.length_cons, List.length_nil] at hd2
  have e2 := read_u16_drop data (i + 2 + 2) h.questions _ hq hd2
  have hd3 := drop_of_drop data (i + 2 + 2) (enc16 h.questions) _ hd2
  rw [enc16_len] at hd3
  have e3 := read_u16_drop data (i + 2 + 2 + 2) h.answers _ han hd3
  have hd4 := drop_of_drop data (i + 2 + 2 + 2) (enc16 h.answers) _ hd3
  rw [enc16_len] at hd4
  have e4 := read_u16_drop data (i + 2 + 2 + 2 + 2) h.authoritative_entries _ hau hd4
  have hd5 := drop_of_drop data (i + 2 + 2 + 2 + 2) (enc16 h.authoritative_entries) _ hd4
  rw [enc16_len] at hd5
  have e5 := read_u16_drop data (i + 2 + 2 + 2 + 2 + 2) h.resource_entries _ hre hd5
  simp only [DnsHeader.read, bind, Except.bind, pure, Except.pure, e0, e1, e2, e3, e4, e5]
  rw [show i + 2 + 2 + 2 + 2 + 2 + 2 = i + 12 by omega]
  exact ⟨_, rfl, rfl, rfl, rfl, rfl⟩

theorem readQuestions_list (qs : List DnsQuestion) (hwf : ∀ q ∈ qs, WfQuestion q) :
    ∀ (data : List Nat) (i : Nat) (rest : List Nat),
      data.drop i = (qs.map encQuestion).flatten ++ rest →
      readQuestions qs.length ⟨data, i⟩
        = .ok (qs, ⟨data, i + ((qs.map encQuestion).flatten).length⟩) := by
  induction qs with
  | nil =>
    intro data i rest _
    simp [readQuestions]
  | cons q qs ih =>
    intro data i rest hd
    have hd0 : data.drop i = encQuestion q ++ ((qs.map encQuestion).flatten ++ rest) := by
      rw [hd]
      simp
    have e0 := question_read_drop q (hwf q (List.mem_cons_self q qs)) data i _ hd0
    have hd1 := drop_of_drop data i (encQuestion q) _ hd0
    have e1 := ih (fun t ht => hwf t (List.mem_cons_of_mem q ht)) data
      (i + (encQuestion q).length) rest hd1
    simp only [List.length_cons, readQuestions, bind, Except.bind, pure, Except.pure, e0, e1]
    rw [show i + (encQuestion q).length + ((qs.map encQuestion).flatten).length
        = i + (((q :: qs).map encQuestion).flatten).length by simp; omega]

theorem readRecords_list (rs : List ResourceRecord) (hwf : ∀ r ∈ rs, WfRecord r) :
    ∀ (data : List Nat) (i : Nat) (rest : List Nat),
      data.drop i = (rs.map encRecord).flatten ++ rest →
      readRecords rs.length ⟨data, i⟩
        = .ok (rs, ⟨data, i + ((rs.map encRecord).flatten).length⟩) := by
  induction rs with
  | nil =>
    intro data i rest _
    simp [readRecords]
  | cons r rs ih =>
    intro data i rest hd
    have hd0 : data.drop i = encRecord r ++ ((rs.map encRecord).flatten ++ rest) := by
      rw [hd]
      simp
    have e0 := record_read_drop r (hwf r (List.mem_cons_self r rs)) data i _ hd0
    have hd1 := drop_of_drop data i (encRecord r) _ hd0
    have e1 := ih (fun t ht => hwf t (List.mem_cons_of_mem r ht)) data
      (i + (encRecord r).length) rest hd1
    simp only [List.length_cons, readRecords, bind, Except.bind, pure, Except.pure, e0, e1]
    rw [show i + (encRecord r).length + ((rs.map encRecord).flatten).length
        = i + (((r :: rs).map encRecord).flatten).length by simp; omega]

/-! ## Characterising `DnsPacket::write` -/

/-- How many leading records the truncation loop accepts: the longest
prefix every cumulative size of which stays within `max`. -/
def tcount (max : Nat) : Nat → List Nat → Nat
  | _, [] => 0
  | size, s :: rest => if max < size + s then 0 else 1 + tcount max (size + s) rest

/-- `m` iterations of the u16 counter increment `(x + 1) % 65536`. -/
def bump (x : Nat) : Nat → Nat
  | 0 => x
  | m + 1 => (bump x m + 1) % 65536

/-- Of the loop indexes `[i, i+k)`, how many lie below `t`. -/
def cntBelow (t i k : Nat) : Nat := min (i + k) t - min i t

theorem bump_bump (x a b : Nat) : bump (bump x a) b = bump x (a + b) := by
  induction b with
  | zero => rfl
  | succ b ih => simp only [bump, ih]; rfl

theorem bump_zero_lt (m : Nat) (hm : m < 65536) : bump 0 m = m := by
  induction m with
  | zero => rfl
  | succ m ih =>
    simp only [bump, ih (by omega)]
    omega

theorem tcount_le (max : Nat) : ∀ (sizes : List Nat) (size : Nat),
    tcount max size sizes ≤ sizes.length := by
  intro sizes
  induction sizes with
  | nil => intro size; simp [tcount]
  | cons s rest ih =>
    intro size
    simp only [tcount]
    by_cases hov : max < size + s
    · simp [hov]
    · simp only [if_neg hov, List.length_cons]
      have := ih (size + s)
      omega

theorem tcount_full (max : Nat) : ∀ (sizes : List Nat) (size : Nat),
    size + sizes.sum ≤ max → tcount max size sizes = sizes.length := by
  intro sizes
  induction sizes with
  | nil => intro size _; rfl
  | cons s rest ih =>
    intro size hle
    simp only [List.sum_cons] at hle
    have hov : ¬ (max < size + s) := by omega
    simp only [tcount, if_neg hov, List.length_cons]
    rw [ih (size + s) (by omega)]
    omega

theorem questions_foldl_write (qs : List DnsQuestion) :
    ∀ (s : Nat) (data : List Nat),
      qs.foldl (fun (st : Nat × VectorPacketBuffer) q => (st.1 + q.binary_len, q.write st.2))
        (s, aligned data)
      = (s + (qs.map DnsQuestion.binary_len).sum,
          aligned (data ++ (qs.map encQuestion).flatten)) := by
  induction qs with
  | nil =>
    intro s data
    simp
  | cons q qs ih =>
    intro s data
    simp only [List.foldl_cons, question_write_aligned, ih]
    simp
    omega

theorem questions_out_foldl (qs : List DnsQuestion) :
    ∀ (data : List Nat),
      qs.foldl (fun b q => q.write b) (aligned data)
        = aligned (data ++ (qs.map encQuestion).flatten) := by
  induction qs with
  | nil => intro data; simp
  | cons q qs ih =>
    intro data
    simp only [List.foldl_cons, question_write_aligned, ih]
    simp

theorem records_out_foldl (rs : List ResourceRecord) :
    ∀ (data : List Nat),
      rs.foldl (fun b r => (r.write b).2) (aligned data)
        = aligned (data ++ (rs.map encRecord).flatten) := by
  induction rs with
  | nil => intro data; simp
  | cons r rs ih =>
    intro data
    simp only [List.foldl_cons, record_write_aligned, ih]
    simp

theorem writeRecordLoop_spec (A B total max : Nat) :
    ∀ (recs : List ResourceRecord) (i size : Nat) (h : DnsHeader) (data : List Nat) (k : Nat),
      k = tcount max size (recs.map (fun r => (encRecord r).length)) →
      writeRecordLoop A B total max recs i size h (aligned data)
        = (if k = recs.length then total else i + k,
           { h with
              truncated_message :=
                if k = recs.length then h.truncated_message else true,
              answers := bump h.answers (cntBelow A i k),
              authoritative_entries := bump h.authoritative_entries
                (cntBelow (A + B) i k - cntBelow A i k),
              resource_entries := bump h.resource_entries (k - cntBelow (A + B) i k) },
           aligned (data ++ ((recs.take (min (k + 1) recs.length)).map encRecord).flatten)) := by
  intro recs
  induction recs with
  | nil =>
    intro i size h data k hk
    simp only [List.map_nil, tcount] at hk
    subst hk
    have hc : ∀ t : Nat, cntBelow t i 0 = 0 := by
      intro t
      unfold cntBelow
      omega
    simp [writeRecordLoop, hc, bump]
  | cons r rest ih =>
    intro i size h data k hk
    simp only [List.map_cons, tcount] at hk
    simp only [writeRecordLoop, record_write_aligned]
    by_cases hov : max < size + (encRecord r).length
    · rw [if_pos hov] at hk ⊢
      subst hk
      have hne : ¬ ((0 : Nat) = (r :: rest).length) := by simp
      have hc : ∀ t : Nat, cntBelow t i 0 = 0 := by
        intro t
        unfold cntBelow
        omega
      rw [if_neg hne, if_neg hne]
      simp [hc, bump]
    · rw [if_neg hov] at hk
      have hrec := ih (i + 1) (size + (encRecord r).length)
      have hkr : k - 1 = tcount max (size + (encRecord r).length)
          (rest.map (fun t => (encRecord t).length)) := by omega
      have hk1 : 1 ≤ k := by omega
      have hcond : (k = (r :: rest).length) ↔ (k - 1 = rest.length) := by
        simp only [List.length_cons]
        omega
      have htake : min (k + 1) ((r :: rest).length) = min (k - 1 + 1) rest.length + 1 := by
        simp only [List.length_cons]
        have := tcount_le max (rest.map (fun t => (encRecord t).length))
          (size + (encRecord r).length)
        simp only [List.length_map] at this
        omega
      have hflat : ((r :: rest).take (min (k + 1) ((r :: rest).length))).map encRecord
          = encRecord r :: (rest.take (min (k - 1 + 1) rest.length)).map encRecord := by
        rw [htake]
        simp
      rw [if_neg hov]
      obtain ⟨id0, rd0, tc0, aa0, op0, rp0, rc0, cd0, ad0, z0, ra0, qs0, an0, au0, re0⟩ := h
      by_cases hzA : i < A
      · rw [if_pos hzA]
        rw [hrec _ _ (k - 1) hkr]
        have ha1 : bump ((an0 + 1) % 65536) (cntBelow A (i + 1) (k - 1))
            = bump an0 (cntBelow A i k) := by
          have hb : (an0 + 1) % 65536 = bump an0 1 := rfl
          rw [hb, bump_bump]
          have : 1 + cntBelow A (i + 1) (k - 1) = cntBelow A i k := by
            unfold cntBelow
            omega
          rw [this]
        have ha2 : cntBelow (A + B) (i + 1) (k - 1) - cntBelow A (i + 1) (k - 1)
            = cntBelow (A + B) i k - cntBelow A i k := by
          unfold cntBelow
          omega
        have ha3 : k - 1 - cntBelow (A + B) (i + 1) (k - 1) = k - cntBelow (A + B) i k := by
          unfold cntBelow
          omega
        have hcond2 : (k = (r :: rest).length) = (k - 1 = rest.length) := propext hcond
        simp only [Prod.mk.injEq, hcond2]
        refine ⟨?_, ?_, ?_⟩
        · by_cases hall : k - 1 = rest.length
          · simp [hall]
          · simp only [if_neg hall]
            omega
        · simp [DnsHeader.mk.injEq, ha1, ha2, ha3]
        · rw [hflat]
          simp
      · rw [if_neg hzA]
        by_cases hzB : i < A + B
        · rw [if_pos hzB]
          rw [hrec _ _ (k - 1) hkr]
          have ha1 : cntBelow A (i + 1) (k - 1) = cntBelow A i k := by
            unfold cntBelow
            omega
          have ha2 : bump ((au0 + 1) % 65536)
              (cntBelow (A + B) (i + 1) (k - 1) - cntBelow A i k)
              = bump au0 (cntBelow (A + B) i k - cntBelow A i k) := by
            have hb : (au0 + 1) % 65536 = bump au0 1 := rfl
            rw [hb, bump_bump]
            have hx : 1 + (cntBelow (A + B) (i + 1) (k - 1) - cntBelow A i k)
                = cntBelow (A + B) i k - cntBelow A i k := by
              unfold cntBelow
              omega
            rw [hx]
          have ha3 : k - 1 - cntBelow (A + B) (i + 1) (k - 1) = k - cntBelow (A + B) i k := by
            unfold cntBelow
            omega
          have hcond2 : (k = (r :: rest).length) = (k - 1 = rest.length) := propext hcond
          simp only [Prod.mk.injEq, hcond2]
          refine ⟨?_, ?_, ?_⟩
          · by_cases hall : k - 1 = rest.length
            · simp [hall]
            · simp only [if_neg hall]
              omega
          · simp [DnsHeader.mk.injEq, ha1, ha2, ha3]
          · rw [hflat]
            simp
        · rw [if_neg hzB]
          rw [hrec _ _ (k - 1) hkr]
          have ha1 : cntBelow A (i + 1) (k - 1) = cntBelow A i k := by
            unfold cntBelow
            omega
          have ha2 : cntBelow (A + B) (i + 1) (k - 1) - cntBelow A i k
              = cntBelow (A + B) i k - cntBelow A i k := by
            unfold cntBelow
            omega
          have ha3 : bump ((re0 + 1) % 65536) (k - 1 - cntBelow (A + B) (i + 1) (k - 1))
              = bump re0 (k - cntBelow (A + B) i k) := by
            have hb : (re0 + 1) % 65536 = bump re0 1 := rfl
            rw [hb, bump_bump]
            have : 1 + (k - 1 - cntBelow (A + B) (i + 1) (k - 1))
                = k - cntBelow (A + B) i k := by
              unfold cntBelow
              omega
            rw [this]
          have hcond2 : (k = (r :: rest).length) = (k - 1 = rest.length) := propext hcond
          simp only [Prod.mk.injEq, hcond2]
          refine ⟨?_, ?_, ?_⟩
          · by_cases hall : k - 1 = rest.length
            · simp [hall]
            · simp only [if_neg hall]
              omega
          · simp [DnsHeader.mk.injEq, ha1, ha2, ha3]
          · rw [hflat]
            simp

/-- The chained record list `answers ++ authorities ++ resources` the
writer walks. -/
def packetRecords (p : DnsPacket) : List ResourceRecord :=
  p.answers ++ p.authorities ++ p.resources

/-- The size estimate after the question loop of `DnsPacket::write`. -/
def questionsSize (p : DnsPacket) : Nat :=
  12 + (p.questions.map DnsQuestion.binary_len).sum

/-- The full serialized size of the packet (header, questions, and
every record). -/
def packetSize (p : DnsPacket) : Nat :=
  questionsSize p + ((packetRecords p).map (fun r => (encRecord r).length)).sum

/-- The number of records the truncation loop of `DnsPacket::write`
accepts. -/
def acceptCount (p : DnsPacket) (max_size : Nat) : Nat :=
  tcount max_size (questionsSize p) ((packetRecords p).map (fun r => (encRecord r).length))

/-- The header as mutated by `DnsPacket::write`. -/
def writtenHeader (p : DnsPacket) (max_size : Nat) : DnsHeader :=
  { p.header with
    questions := p.questions.length % 65536
    truncated_message :=
      if acceptCount p max_size = (packetRecords p).length
        then p.header.truncated_message else true
    answers := bump p.header.answers (cntBelow p.answers.length 0 (acceptCount p max_size))
    authoritative_entries := bump p.header.authoritative_entries
      (cntBelow (p.answers.length + p.authorities.length) 0 (acceptCount p max_size)
        - cntBelow p.answers.length 0 (acceptCount p max_size))
    resource_entries := bump p.header.resource_entries
      (acceptCount p max_size
        - cntBelow (p.answers.length + p.authorities.length) 0 (acceptCount p max_size)) }

/-- The record count of the emitted prefix: all records when nothing
overflows, else the index of the first overflow. -/
def recordCountOut (p : DnsPacket) (max_size : Nat) : Nat :=
  if acceptCount p max_size = (packetRecords p).length
    then p.answers.length + p.authorities.length + p.resources.length
    else acceptCount p max_size

/-- The bytes `DnsPacket::write` appends to the output buffer. -/
def writeBytesOut (p : DnsPacket) (max_size : Nat) : List Nat :=
  encHeader (writtenHeader p max_size) ++ (p.questions.map encQuestion).flatten
    ++ (((packetRecords p).take (recordCountOut p max_size)).map encRecord).flatten

theorem dnspacket_write_eq (p : DnsPacket) (buf : List Nat) (max_size : Nat) :
    p.write (aligned buf) max_size
      = ({ p with header := writtenHeader p max_size },
         aligned (buf ++ writeBytesOut p max_size)) := by
  unfold DnsPacket.write
  rw [show VectorPacketBuffer.new = aligned [] from rfl]
  simp only [questions_foldl_write]
  have hk : acceptCount p max_size = tcount max_size
      (p.header.binary_len + (p.questions.map DnsQuestion.binary_len).sum)
      ((p.answers ++ p.authorities ++ p.resources).map (fun r => (encRecord r).length)) := by
    simp [acceptCount, questionsSize, packetRecords, DnsHeader.binary_len]
  rw [writeRecordLoop_spec p.answers.length p.authorities.length
    (p.answers.length + p.authorities.length + p.resources.length) max_size
    (p.answers ++ p.authorities ++ p.resources) 0
    (p.header.binary_len + (p.questions.map DnsQuestion.binary_len).sum)
    p.header ([] ++ (p.questions.map encQuestion).flatten) (acceptCount p max_size) hk]
  simp only [header_write_aligned, questions_out_foldl, records_out_foldl]
  have hlen : (p.answers ++ p.authorities ++ p.resources).length
      = p.answers.length + p.authorities.length + p.resources.length := by
    simp
    omega
  have hrc : (if acceptCount p max_size
        = (p.answers ++ p.authorities ++ p.resources).length
      then p.answers.length + p.authorities.length + p.resources.length
      else 0 + acceptCount p max_size) = recordCountOut p max_size := by
    rw [recordCountOut, packetRecords, hlen]
    by_cases hall : acceptCount p max_size
        = p.answers.length + p.authorities.length + p.resources.length
    · rw [if_pos hall, if_pos hall]
    · rw [if_neg hall, if_neg hall]
      omega
  rw [hrc]
  have hhead : ({ p.header with
      truncated_message :=
        if acceptCount p max_size = (p.answers ++ p.authorities ++ p.resources).length
          then p.header.truncated_message else true
      answers := bump p.header.answers
        (cntBelow p.answers.length 0 (acceptCount p max_size))
      authoritative_entries := bump p.header.authoritative_entries
        (cntBelow (p.answers.length + p.authorities.length) 0 (acceptCount p max_size)
          - cntBelow p.answers.length 0 (acceptCount p max_size))
      resource_entries := bump p.header.resource_entries
        (acceptCount p max_size
          - cntBelow (p.answers.length + p.authorities.length) 0 (acceptCount p max_size)),
      questions := p.questions.length % 65536 } : DnsHeader)
      = writtenHeader p max_size := by
    rw [writtenHeader, packetRecords, hlen]
  rw [hhead]
  simp [writeBytesOut, packetRecords]

/-! ## Claim C9: `get_querytype` returns the variant's declared type -/

/-- The query type each record variant must report, written from the
claim's own listing. -/
def querytypeOfRecordSpec : ResourceRecord → QueryType
  | .A _ _ _ => .A
  | .NS _ _ _ => .NS
  | .CNAME _ _ _ => .CNAME
  | .SOA _ _ _ _ _ _ _ _ _ => .SOA
  | .MX _ _ _ _ => .MX
  | .TXT _ _ _ => .TXT
  | .AAAA _ _ _ => .AAAA
  | .SRV _ _ _ _ _ _ => .SRV
  | .OPT _ _ _ => .OPT
  | .UNKNOWN _ n _ _ => .UNKNOWN n

/-- C9: for every `ResourceRecord`, `get_querytype` returns exactly the
`QueryType` corresponding to the record's variant (A records yield
`QueryType::A`, ..., `UNKNOWN(domain, n, len, ttl)` yields
`QueryType::UNKNOWN(n)`). -/
theorem c9_get_querytype_matches_variant (r : ResourceRecord) :
    r.get_querytype = querytypeOfRecordSpec r := by
  cases r <;> rfl

/-! ## Claim C8: `ResultCode::from_num` is lenient -/

/-- The mapping the claim describes: 0..5 go to their variant, every
other 8-bit value to NOERROR. -/
def resultCodeOfNumSpec (n : Nat) : ResultCode :=
  if n = 0 then .NOERROR
  else if n = 1 then .FORMERR
  else if n = 2 then .SERVFAIL
  else if n = 3 then .NXDOMAIN
  else if n = 4 then .NOTIMP
  else if n = 5 then .REFUSED
  else .NOERROR

set_option maxRecDepth 4096 in
/-- C8: for every 8-bit number `n` in `{0..5}`, `ResultCode::from_num n`
is the corresponding variant, and for every other 8-bit `n` it is
NOERROR. -/
theorem c8_resultcode_lenient : ∀ n : Nat, n < 256 →
    ResultCode.from_num n = resultCodeOfNumSpec n := by
  decide

/-- Witness for C8 at the concrete unknown code 200. -/
theorem c8_resultcode_lenient_witness :
    ResultCode.from_num 200 = resultCodeOfNumSpec 200 :=
  c8_resultcode_lenient 200 (by decide)

/-! ## Claim C7: the `QueryType` numeric round trip -/

/-- The numeric codes that have a dedicated `QueryType` variant. -/
def supportedCodes : List Nat := [1, 2, 5, 6, 15, 16, 28, 33, 41]

/-- C7 counterexample: `from_num (to_num (UNKNOWN 1))` is `A`, not
`UNKNOWN 1`, so the second half of the claim fails as stated. -/
theorem c7_counterexample :
    ¬ QueryType.from_num ((QueryType.UNKNOWN 1).to_num) = QueryType.UNKNOWN 1 := by
  decide

theorem to_num_from_num (n : Nat) : (QueryType.from_num n).to_num = n := by
  unfold QueryType.from_num
  split <;> simp_all [QueryType.to_num]

/-- C7 (amended): for every 16-bit `n`, `from_num(n).to_num() = n`; and
`from_num(q.to_num()) = q` holds for every `q` that is not an `UNKNOWN`
carrying one of the nine supported codes (for those, `from_num` returns
the dedicated variant instead). -/
theorem c7_querytype_roundtrip :
    (∀ n : Nat, n < 65536 → (QueryType.from_num n).to_num = n)
    ∧ ∀ q : QueryType, (∀ x, q = QueryType.UNKNOWN x → x ∉ supportedCodes) →
        QueryType.from_num q.to_num = q := by
  constructor
  · intro n _
    exact to_num_from_num n
  · intro q hq
    cases q with
    | UNKNOWN x =>
      have hx : x ∉ supportedCodes := hq x rfl
      simp only [supportedCodes, List.mem_cons, List.mem_singleton] at hx
      push_neg at hx
      obtain ⟨n1, n2, n5, n6, n15, n16, n28, n33, n41⟩ := hx
      simp only [QueryType.to_num, QueryType.from_num]
      split <;> simp_all
    | A => rfl
    | NS => rfl
    | CNAME => rfl
    | SOA => rfl
    | MX => rfl
    | TXT => rfl
    | AAAA => rfl
    | SRV => rfl
    | OPT => rfl

/-- Witness for C7 at `n = 7` and `q = UNKNOWN 999`. -/
theorem c7_querytype_roundtrip_witness :
    (QueryType.from_num 7).to_num = 7
    ∧ QueryType.from_num ((QueryType.UNKNOWN 999).to_num) = QueryType.UNKNOWN 999 :=
  ⟨c7_querytype_roundtrip.1 7 (by decide),
   c7_querytype_roundtrip.2 (QueryType.UNKNOWN 999)
     (fun x hx => by
       cases hx
       decide)⟩

/-! ## Claim C3: `get_unresolved_cnames` also returns non-CNAME answers -/

/-- A packet whose only answer is an A record. -/
def c3Packet : DnsPacket :=
  { DnsPacket.new with
    answers := [.A [97, 46, 99, 111, 109] ⟨1, 2, 3, 4⟩ 60] }

/-- C3, failing input: on a packet whose only answer is an A record,
`get_unresolved_cnames` returns that A record, though the claim (and
the function's name) says no record of any variant other than CNAME may
be included.  The `unresolved.push` of the source runs for every answer
whose `matched` flag stayed `false`, and non-CNAME answers never set
it. -/
theorem c3_non_cname_included :
    c3Packet.get_unresolved_cnames = [.A [97, 46, 99, 111, 109] ⟨1, 2, 3, 4⟩ 60]
    ∧ (ResourceRecord.A [97, 46, 99, 111, 109] ⟨1, 2, 3, 4⟩ 60).get_querytype
        ≠ QueryType.CNAME := by
  decide

/-! ## Claim C4: `get_random_a` -/

/-- A packet whose answers hold one CNAME (index 0) and one A
(index 1). -/
def c4Packet : DnsPacket :=
  { DnsPacket.new with
    answers := [.CNAME [97, 46, 99, 111, 109] [98, 46, 99, 111, 109] 60,
                .A [98, 46, 99, 111, 109] ⟨1, 2, 3, 4⟩ 60] }

/-- C4 counterexample: the answers contain an A record, yet when the
random draw lands on the CNAME (index `0 % 2`), `get_random_a` returns
`None` — the claim says `None` is returned only when no A record is
present, and that the pick is uniform among the A records. -/
theorem c4_counterexample :
    c4Packet.get_random_a 0 = none
    ∧ c4Packet.answers.any (fun r => r.get_querytype = QueryType.A) = true := by
  decide

/-- C4 (amended): `get_random_a` draws one index uniformly among ALL
answers (`r % answers.len()`), not among the A records: it returns the
textual IPv4 of the drawn answer when that answer is an A record, and
`None` otherwise — even when A records exist elsewhere in the list.  On
an empty answer list it returns `None`. -/
theorem c4_random_a_characterisation (p : DnsPacket) (r : Nat) :
    (p.answers = [] → p.get_random_a r = none)
    ∧ (∀ dom ip ttl, p.answers[r % p.answers.length]? = some (.A dom ip ttl) →
        p.get_random_a r = some ip.to_string)
    ∧ (∀ rec, p.answers[r % p.answers.length]? = some rec →
        (∀ dom ip ttl, rec ≠ .A dom ip ttl) → p.get_random_a r = none) := by
  refine ⟨?_, ?_, ?_⟩
  · intro hnil
    unfold DnsPacket.get_random_a
    rw [hnil]
    rfl
  · intro dom ip ttl hget
    unfold DnsPacket.get_random_a
    rw [hget]
  · intro rec hget hne
    unfold DnsPacket.get_random_a
    rw [hget]
    cases rec with
    | A dom ip ttl => exact absurd rfl (hne dom ip ttl)
    | UNKNOWN a b c dl => rfl
    | NS a b c => rfl
    | CNAME a b c => rfl
    | SOA a b c d e f g j k => rfl
    | MX a b c d => rfl
    | TXT a b c => rfl
    | AAAA a b c => rfl
    | SRV a b c d e f => rfl
    | OPT a b c => rfl

/-- Witness for C4: on `c4Packet` the draw `r = 1` lands on the A
record and yields its dotted-quad text. -/
theorem c4_random_a_characterisation_witness :
    c4Packet.get_random_a 1 = some (Ipv4Addr.to_string ⟨1, 2, 3, 4⟩) :=
  (c4_random_a_characterisation c4Packet 1).2.1
    [98, 46, 99, 111, 109] ⟨1, 2, 3, 4⟩ 60 (by decide)

/-! ## Claim C5: writing the same packet value twice appends the same bytes -/

/-- C5: for every packet and `max_size`, two successive calls to
`DnsPacket::write` on the same packet value (the same value passed to
both calls) and the same `max_size`, the second writing into the buffer
produced by the first, append identical byte sequences: the bytes the
second call appends equal the bytes the first call produced.  The
cursor of the starting buffer sits at its end, as it always does in the
server (fresh or just-written buffers). -/
theorem c5_write_same_bytes (p : DnsPacket) (buf : VectorPacketBuffer) (max_size : Nat)
    (hpos : buf.pos = buf.buffer.length) :
    ∃ out, (p.write buf max_size).2.buffer = buf.buffer ++ out
      ∧ (p.write (p.write buf max_size).2 max_size).2.buffer
          = (p.write buf max_size).2.buffer ++ out := by
  have hb : buf = aligned buf.buffer := by
    cases buf with
    | mk b pp =>
      simp only [aligned] at hpos ⊢
      rw [hpos]
  refine ⟨writeBytesOut p max_size, ?_, ?_⟩
  · rw [hb, dnspacket_write_eq]
    rfl
  · rw [hb, dnspacket_write_eq, dnspacket_write_eq]
    rfl

/-- A small concrete packet: one question and one A answer. -/
def c5Packet : DnsPacket :=
  { DnsPacket.new with
    questions := [DnsQuestion.new [97, 46, 99, 111, 109] .A]
    answers := [.A [97, 46, 99, 111, 109] ⟨9, 8, 7, 6⟩ 300] }

/-- Witness for C5: `c5Packet` written twice into a fresh buffer at
`max_size = 512`. -/
theorem c5_write_same_bytes_witness :
    ∃ out, (c5Packet.write ⟨[], 0⟩ 512).2.buffer = ([] : List Nat) ++ out
      ∧ (c5Packet.write (c5Packet.write ⟨[], 0⟩ 512).2 512).2.buffer
          = (c5Packet.write ⟨[], 0⟩ 512).2.buffer ++ out :=
  c5_write_same_bytes c5Packet ⟨[], 0⟩ 512 rfl

/-! ## Claim C10: OPT/UNKNOWN records are counted but emit no bytes -/

/-- The two record variants `ResourceRecord::write` skips. -/
def isOptOrUnknown : ResourceRecord → Bool
  | .OPT _ _ _ => true
  | .UNKNOWN _ _ _ _ => true
  | _ => false

theorem bump_zero (m : Nat) : bump 0 m = m % 65536 := by
  induction m with
  | zero => rfl
  | succ m ih =>
    simp only [bump, ih]
    omega

theorem encRecord_phantom (r : ResourceRecord) (h : isOptOrUnknown r = true) :
    encRecord r = [] := by
  cases r <;> simp_all [isOptOrUnknown, encRecord]

theorem flatten_filter_phantom (rs : List ResourceRecord) :
    (((rs.filter (fun r => !(isOptOrUnknown r))).map encRecord)).flatten
      = (rs.map encRecord).flatten := by
  induction rs with
  | nil => rfl
  | cons r rest ih =>
    by_cases hr : isOptOrUnknown r = true
    · simp [List.filter_cons, hr, encRecord_phantom r hr, ih]
    · simp only [Bool.not_eq_true] at hr
      simp [List.filter_cons, hr, ih]

theorem filter_lt_of_any (rs : List ResourceRecord) (h : rs.any isOptOrUnknown = true) :
    (rs.filter (fun r => !(isOptOrUnknown r))).length < rs.length := by
  induction rs with
  | nil => simp at h
  | cons r rest ih =>
    by_cases hr : isOptOrUnknown r = true
    · have := List.length_filter_le (fun t => !(isOptOrUnknown t)) rest
      simp [List.filter_cons, hr]
      omega
    · simp only [Bool.not_eq_true] at hr
      simp only [List.any_cons, hr, Bool.false_or] at h
      have := ih h
      simp [List.filter_cons, hr]
      omega

/-- C10: for every packet containing an OPT or UNKNOWN record, with
section counts starting at zero, fewer than 65536 records, and a
`max_size` that fits the whole serialization: `DnsPacket::write` still
counts the OPT/UNKNOWN records in the emitted header (the counts equal
the full section lengths), yet `ResourceRecord::write` emits zero bytes
for those variants, so the output bytes hold only the other records —
strictly fewer records than the header counts announce. -/
theorem c10_phantom_records (p : DnsPacket) (max_size : Nat)
    (h0 : p.header.answers = 0 ∧ p.header.authoritative_entries = 0
      ∧ p.header.resource_entries = 0)
    (hsmall : p.answers.length + p.authorities.length + p.resources.length < 65536)
    (hopt : (packetRecords p).any isOptOrUnknown = true)
    (hfit : packetSize p ≤ max_size) :
    ((p.write (aligned []) max_size).1.header.answers = p.answers.length
      ∧ (p.write (aligned []) max_size).1.header.authoritative_entries = p.authorities.length
      ∧ (p.write (aligned []) max_size).1.header.resource_entries = p.resources.length)
    ∧ (∀ r : ResourceRecord, isOptOrUnknown r = true →
        ∀ b : VectorPacketBuffer, r.write b = (0, b))
    ∧ (p.write (aligned []) max_size).2.buffer
        = encHeader (writtenHeader p max_size) ++ (p.questions.map encQuestion).flatten
          ++ (((packetRecords p).filter (fun r => !(isOptOrUnknown r))).map encRecord).flatten
    ∧ ((packetRecords p).filter (fun r => !(isOptOrUnknown r))).length
        < p.answers.length + p.authorities.length + p.resources.length := by
  obtain ⟨hz1, hz2, hz3⟩ := h0
  have hlenrec : (packetRecords p).length
      = p.answers.length + p.authorities.length + p.resources.length := by
    simp [packetRecords]
    omega
  have hk : acceptCount p max_size = (packetRecords p).length := by
    unfold acceptCount
    rw [tcount_full]
    · simp
    · unfold packetSize at hfit
      omega
  have hrc : recordCountOut p max_size = (packetRecords p).length := by
    rw [recordCountOut, if_pos hk, hlenrec]
  refine ⟨⟨?_, ?_, ?_⟩, ?_, ?_, ?_⟩
  · rw [dnspacket_write_eq]
    show (writtenHeader p max_size).answers = p.answers.length
    rw [writtenHeader]
    simp only [hz1, hk, hlenrec]
    rw [bump_zero]
    unfold cntBelow
    omega
  · rw [dnspacket_write_eq]
    show (writtenHeader p max_size).authoritative_entries = p.authorities.length
    rw [writtenHeader]
    simp only [hz2, hk, hlenrec]
    rw [bump_zero]
    unfold cntBelow
    omega
  · rw [dnspacket_write_eq]
    show (writtenHeader p max_size).resource_entries = p.resources.length
    rw [writtenHeader]
    simp only [hz3, hk, hlenrec]
    rw [bump_zero]
    unfold cntBelow
    omega
  · intro r hr b
    cases r with
    | OPT a c dl => simp [ResourceRecord.write]
    | UNKNOWN a c dl e => simp [ResourceRecord.write]
    | A a c dl => simp [isOptOrUnknown] at hr
    | NS a c dl => simp [isOptOrUnknown] at hr
    | CNAME a c dl => simp [isOptOrUnknown] at hr
    | SOA a c dl e f g j k l => simp [isOptOrUnknown] at hr
    | MX a c dl e => simp [isOptOrUnknown] at hr
    | TXT a c dl => simp [isOptOrUnknown] at hr
    | AAAA a c dl => simp [isOptOrUnknown] at hr
    | SRV a c dl e f g => simp [isOptOrUnknown] at hr
  · rw [dnspacket_write_eq]
    show ([] : List Nat) ++ writeBytesOut p max_size = _
    rw [List.nil_append, writeBytesOut, hrc]
    rw [List.take_length, flatten_filter_phantom]
  · rw [← hlenrec]
    exact filter_lt_of_any (packetRecords p) hopt

/-- Witness packet for C10: one A answer plus one UNKNOWN additional. -/
def c10Packet : DnsPacket :=
  { DnsPacket.new with
    answers := [.A [97, 46, 99, 111, 109] ⟨1, 2, 3, 4⟩ 60]
    resources := [.UNKNOWN [98, 46, 99, 111, 109] 99 0 60] }

/-- Witness for C10 on `c10Packet` at `max_size = 512`. -/
theorem c10_phantom_records_witness :
    ((c10Packet.write (aligned []) 512).1.header.answers = c10Packet.answers.length
      ∧ (c10Packet.write (aligned []) 512).1.header.authoritative_entries
          = c10Packet.authorities.length
      ∧ (c10Packet.write (aligned []) 512).1.header.resource_entries
          = c10Packet.resources.length)
    ∧ (∀ r : ResourceRecord, isOptOrUnknown r = true →
        ∀ b : VectorPacketBuffer, r.write b = (0, b))
    ∧ (c10Packet.write (aligned []) 512).2.buffer
        = encHeader (writtenHeader c10Packet 512)
          ++ (c10Packet.questions.map encQuestion).flatten
          ++ (((packetRecords c10Packet).filter
                (fun r => !(isOptOrUnknown r))).map encRecord).flatten
    ∧ ((packetRecords c10Packet).filter (fun r => !(isOptOrUnknown r))).length
        < c10Packet.answers.length + c10Packet.authorities.length
          + c10Packet.resources.length :=
  c10_phantom_records c10Packet 512 (by decide) (by decide) (by decide) (by decide)

/-! ## Claim C2: truncation -/

theorem encHeader_len (h : DnsHeader) : (encHeader h).length = 12 := by
  simp [encHeader, enc16]

theorem qname_len_foldl (ls : List (List Nat)) : ∀ s : Nat,
    ls.foldl (fun a l => a + 1 + l.length) s = s + ((ls.map encLabel).flatten).length := by
  induction ls with
  | nil => intro s; simp
  | cons l rest ih =>
    intro s
    simp only [List.foldl_cons, ih, List.map_cons, List.flatten_cons, List.length_append,
      encLabel, List.length_cons, List.length_map]
    omega

theorem qname_len_eq (name : RStr) :
    VectorPacketBuffer.qname_len name = (encQname name).length := by
  unfold VectorPacketBuffer.qname_len encQname
  rw [qname_len_foldl]
  simp

theorem encQuestion_len (q : DnsQuestion) : (encQuestion q).length = q.binary_len := by
  unfold encQuestion DnsQuestion.binary_len
  rw [qname_len_eq]
  simp [enc16]

theorem qflat_len (qs : List DnsQuestion) :
    ((qs.map encQuestion).flatten).length = (qs.map DnsQuestion.binary_len).sum := by
  induction qs with
  | nil => rfl
  | cons q rest ih =>
    simp only [List.map_cons, List.flatten_cons, List.length_append, ih, List.sum_cons,
      encQuestion_len]

theorem tcount_prefix_le (max : Nat) : ∀ (sizes : List Nat) (size : Nat), size ≤ max →
    size + ((sizes.take (tcount max size sizes)).sum) ≤ max := by
  intro sizes
  induction sizes with
  | nil => intro size hs; simpa [tcount]
  | cons s rest ih =>
    intro size hs
    by_cases hov : max < size + s
    · simp [tcount, hov]
      omega
    · simp only [tcount, if_neg hov]
      rw [Nat.add_comm 1 (tcount max (size + s) rest)]
      simp only [List.take_succ_cons, List.sum_cons]
      have := ih (size + s) (by omega)
      omega

theorem tcount_eq_len_sum (max : Nat) : ∀ (sizes : List Nat) (size : Nat), size ≤ max →
    tcount max size sizes = sizes.length → size + sizes.sum ≤ max := by
  intro sizes
  induction sizes with
  | nil => intro size hle _; simpa
  | cons s rest ih =>
    intro size hle hk
    by_cases hov : max < size + s
    · simp [tcount, hov] at hk
    · simp only [tcount, if_neg hov, List.length_cons] at hk
      have := ih (size + s) (by omega) (by omega)
      simp only [List.sum_cons]
      omega

theorem flatten_take_len (rs : List ResourceRecord) : ∀ k : Nat,
    (((rs.take k).map encRecord).flatten).length
      = ((rs.map (fun r => (encRecord r).length)).take k).sum := by
  induction rs with
  | nil => intro k; simp
  | cons r rest ih =>
    intro k
    cases k with
    | zero => simp
    | succ k =>
      simp only [List.take_succ_cons, List.map_cons, List.flatten_cons, List.length_append,
        List.sum_cons, ih k]

theorem packetRecords_take_split (p : DnsPacket) (k : Nat) :
    (packetRecords p).take k
      = p.answers.take k ++ p.authorities.take (k - p.answers.length)
        ++ p.resources.take (k - p.answers.length - p.authorities.length) := by
  unfold packetRecords
  rw [List.take_append_eq_append_take, List.take_append_eq_append_take]
  simp
  omega

/-- C2 counterexample: the empty packet at `max_size = 11`.  Its full
serialization (12 header bytes) exceeds `max_size`, yet `write` emits
all 12 bytes (more than `max_size`) and never sets the TC bit — the
questions section and the header are not subject to the size check. -/
theorem c2_counterexample :
    11 < packetSize DnsPacket.new
    ∧ (DnsPacket.new.write (aligned []) 11).2.buffer.length = 12
    ∧ (DnsPacket.new.write (aligned []) 11).1.header.truncated_message = false := by
  decide

/-- C2 (amended): for every packet whose section counts start at zero
and whose header-plus-questions estimate fits in `max_size`, if the
full serialization exceeds `max_size` then `DnsPacket::write` emits at
most `max_size` bytes, sets the TC bit, the emitted u16 section counts
equal the number of records of each section actually serialized, and
the emitted records are the prefix of `answers`, then `authorities`,
then `additionals` — records drop from the tail. -/
theorem c2_truncation (p : DnsPacket) (max_size : Nat)
    (h0 : p.header.answers = 0 ∧ p.header.authoritative_entries = 0
      ∧ p.header.resource_entries = 0)
    (hqfit : questionsSize p ≤ max_size)
    (hover : max_size < packetSize p) :
    (p.write (aligned []) max_size).2.buffer.length ≤ max_size
    ∧ (p.write (aligned []) max_size).1.header.truncated_message = true
    ∧ (p.write (aligned []) max_size).1.header.answers
        = (p.answers.take (acceptCount p max_size)).length % 65536
    ∧ (p.write (aligned []) max_size).1.header.authoritative_entries
        = (p.authorities.take (acceptCount p max_size - p.answers.length)).length % 65536
    ∧ (p.write (aligned []) max_size).1.header.resource_entries
        = (p.resources.take (acceptCount p max_size - p.answers.length
            - p.authorities.length)).length % 65536
    ∧ (p.write (aligned []) max_size).2.buffer
        = encHeader (writtenHeader p max_size) ++ (p.questions.map encQuestion).flatten
          ++ ((p.answers.take (acceptCount p max_size)
              ++ p.authorities.take (acceptCount p max_size - p.answers.length)
              ++ p.resources.take (acceptCount p max_size - p.answers.length
                  - p.authorities.length)).map encRecord).flatten := by
  obtain ⟨hz1, hz2, hz3⟩ := h0
  have hlenrec : (packetRecords p).length
      = p.answers.length + p.authorities.length + p.resources.length := by
    simp [packetRecords]
    omega
  have hkne : acceptCount p max_size ≠ (packetRecords p).length := by
    intro heq
    have := tcount_eq_len_sum max_size
      ((packetRecords p).map (fun r => (encRecord r).length)) (questionsSize p) hqfit
      (by simpa [acceptCount] using heq)
    unfold packetSize at hover
    omega
  have hrc : recordCountOut p max_size = acceptCount p max_size := by
    rw [recordCountOut, if_neg hkne]
  have hkle : acceptCount p max_size ≤ (packetRecords p).length := by
    have := tcount_le max_size ((packetRecords p).map (fun r => (encRecord r).length))
      (questionsSize p)
    simpa [acceptCount] using this
  have hout : (p.write (aligned []) max_size).2.buffer = writeBytesOut p max_size := by
    rw [dnspacket_write_eq]
    simp [aligned]
  refine ⟨?_, ?_, ?_, ?_, ?_, ?_⟩
  · rw [hout, writeBytesOut, hrc]
    simp only [List.length_append, encHeader_len, qflat_len, flatten_take_len]
    have := tcount_prefix_le max_size
      ((packetRecords p).map (fun r => (encRecord r).length)) (questionsSize p) hqfit
    unfold acceptCount
    unfold questionsSize at this hqfit ⊢
    omega
  · rw [dnspacket_write_eq]
    show (writtenHeader p max_size).truncated_message = true
    rw [writtenHeader]
    simp only [if_neg hkne]
  · rw [dnspacket_write_eq]
    show (writtenHeader p max_size).answers = _
    rw [writtenHeader]
    simp only [hz1]
    rw [bump_zero]
    unfold cntBelow
    rw [List.length_take]
    congr 1
    omega
  · rw [dnspacket_write_eq]
    show (writtenHeader p max_size).authoritative_entries = _
    rw [writtenHeader]
    simp only [hz2]
    rw [bump_zero]
    unfold cntBelow
    rw [List.length_take]
    congr 1
    omega
  · rw [dnspacket_write_eq]
    show (writtenHeader p max_size).resource_entries = _
    rw [writtenHeader]
    simp only [hz3]
    rw [bump_zero]
    unfold cntBelow
    rw [List.length_take]
    congr 1
    omega
  · rw [hout, writeBytesOut, hrc, packetRecords_take_split]

/-- Witness packet for C2: three NS answers behind one question, too
big for `max_size = 80`. -/
def c2Packet : DnsPacket :=
  { DnsPacket.new with
    questions := [DnsQuestion.new [103, 111, 111, 103, 108, 101, 46, 99, 111, 109] .NS]
    answers := [.NS [103, 111, 111, 103, 108, 101, 46, 99, 111, 109]
                  [110, 115, 49, 46, 103, 111, 111, 103, 108, 101, 46, 99, 111, 109] 3600,
                .NS [103, 111, 111, 103, 108, 101, 46, 99, 111, 109]
                  [110, 115, 50, 46, 103, 111, 111, 103, 108, 101, 46, 99, 111, 109] 3600,
                .NS [103, 111, 111, 103, 108, 101, 46, 99, 111, 109]
                  [110, 115, 51, 46, 103, 111, 111, 103, 108, 101, 46, 99, 111, 109] 3600] }

/-- Witness for C2 on `c2Packet` at `max_size = 80`. -/
theorem c2_truncation_witness :
    (c2Packet.write (aligned []) 80).2.buffer.length ≤ 80
    ∧ (c2Packet.write (aligned []) 80).1.header.truncated_message = true
    ∧ (c2Packet.write (aligned []) 80).1.header.answers
        = (c2Packet.answers.take (acceptCount c2Packet 80)).length % 65536
    ∧ (c2Packet.write (aligned []) 80).1.header.authoritative_entries
        = (c2Packet.authorities.take (acceptCount c2Packet 80
            - c2Packet.answers.length)).length % 65536
    ∧ (c2Packet.write (aligned []) 80).1.header.resource_entries
        = (c2Packet.resources.take (acceptCount c2Packet 80 - c2Packet.answers.length
            - c2Packet.authorities.length)).length % 65536
    ∧ (c2Packet.write (aligned []) 80).2.buffer
        = encHeader (writtenHeader c2Packet 80) ++ (c2Packet.questions.map encQuestion).flatten
          ++ ((c2Packet.answers.take (acceptCount c2Packet 80)
              ++ c2Packet.authorities.take (acceptCount c2Packet 80 - c2Packet.answers.length)
              ++ c2Packet.resources.take (acceptCount c2Packet 80 - c2Packet.answers.length
                  - c2Packet.authorities.length)).map encRecord).flatten :=
  c2_truncation c2Packet 80 (by decide) (by decide) (by decide)

/-! ## Claim C6: error propagation -/

/-- C6 failing input: a 12-byte header announcing one question,
followed at offset 12 by a name that is a compression pointer to
itself, which loops until the jump limit. -/
def cycleBuf : List Nat := [0, 0, 0, 0, 0, 1, 0, 0, 0, 0, 0, 0, 192, 12, 0, 1, 0, 1]

/-- C6: reading the question name at offset 12 of `cycleBuf` fails
with the jump-limit error, yet `DnsPacket::from_buffer` on the same
bytes returns a successfully parsed packet (with an empty question
name) — `DnsQuestion::read` discards the result of `read_qname` with
`let _ = ...`, so name-read errors do not propagate to the packet
level. -/
theorem c6_error_not_propagated :
    (VectorPacketBuffer.read_qname ⟨cycleBuf, 12⟩).1
        = Except.error "Limit of 5 jumps exceeded"
    ∧ DnsPacket.from_buffer ⟨cycleBuf, 0⟩
        = Except.ok
            { header := { DnsHeader.new with questions := 1 }
              questions := [⟨[], QueryType.A⟩]
              answers := []
              authorities := []
              resources := [] } := by
  constructor
  · rfl
  · rfl

/-! ## Claim C1: write/from_buffer round trip -/

/-- A packet whose serialization parses back exactly: section lengths
fit in a u16, every question and record carries a well-formed domain
name with in-range numeric fields, and no question uses an `UNKNOWN`
type whose code belongs to a dedicated variant. -/
def WfPacket (p : DnsPacket) : Prop :=
  p.questions.length < 65536 ∧ p.answers.length < 65536
    ∧ p.authorities.length < 65536 ∧ p.resources.length < 65536
    ∧ (∀ q ∈ p.questions, WfQuestion q) ∧ (∀ r ∈ packetRecords p, WfRecord r)

instance (p : DnsPacket) : Decidable (WfPacket p) := by
  unfold WfPacket
  infer_instance

/-- A packet whose only question is for the name `"."` (the single
byte 46): its supported-variant record sections are all empty, yet the
round trip loses the question name. -/
def c1Packet : DnsPacket :=
  { DnsPacket.new with questions := [DnsQuestion.new [46] .A] }

/-- C1 counterexample: serializing `c1Packet` (question name `"."`,
counts zero, `max_size = 512` ample) and parsing the bytes back yields
a question list whose single entry is `("", UNKNOWN 0)`, not
`(".", A)` — `write_qname` emits `"."` as two zero-length labels, the
reader stops at the first zero octet, and the remaining stray zero
byte shifts the type field, so the round trip is not the identity on
all packets built from supported variants. -/
theorem c1_counterexample :
    (DnsPacket.from_buffer
        ⟨(c1Packet.write (aligned []) 512).2.buffer, 0⟩).map DnsPacket.questions
      = Except.ok [⟨[], QueryType.UNKNOWN 0⟩]
    ∧ [DnsQuestion.mk [] (QueryType.UNKNOWN 0)] ≠ c1Packet.questions := by
  constructor
  · rfl
  · decide

/-- C1 (amended): for every well-formed packet (`WfPacket`: section
lengths below 65536, well-formed names, canonical question types)
whose header section counts start at zero, serializing with a
`max_size` that fits the whole packet and parsing the bytes back
yields a packet with exactly the original question, answer, authority,
and resource lists. -/
theorem c1_roundtrip (p : DnsPacket) (max_size : Nat)
    (hwf : WfPacket p)
    (h0 : p.header.answers = 0 ∧ p.header.authoritative_entries = 0
      ∧ p.header.resource_entries = 0)
    (hfit : packetSize p ≤ max_size) :
    ∃ q, DnsPacket.from_buffer ⟨(p.write (aligned []) max_size).2.buffer, 0⟩
        = Except.ok q
      ∧ q.questions = p.questions ∧ q.answers = p.answers
      ∧ q.authorities = p.authorities ∧ q.resources = p.resources := by
  obtain ⟨hq65, ha65, hb65, hc65, hwfq, hwfr⟩ := hwf
  obtain ⟨hz1, hz2, hz3⟩ := h0
  have hk : acceptCount p max_size = (packetRecords p).length := by
    have h1 := hfit
    unfold packetSize at h1
    have := tcount_full max_size ((packetRecords p).map (fun r => (encRecord r).length))
      (questionsSize p) h1
    simpa [acceptCount] using this
  have hlenrec : (packetRecords p).length
      = p.answers.length + p.authorities.length + p.resources.length := by
    simp [packetRecords]
    omega
  have htake : (packetRecords p).take (recordCountOut p max_size) = packetRecords p := by
    rw [recordCountOut, if_pos hk, ← hlenrec]
    exact List.take_length _
  have hwhq : (writtenHeader p max_size).questions = p.questions.length := by
    show p.questions.length % 65536 = p.questions.length
    exact Nat.mod_eq_of_lt hq65
  have hwha : (writtenHeader p max_size).answers = p.answers.length := by
    show bump p.header.answers (cntBelow p.answers.length 0 (acceptCount p max_size))
        = p.answers.length
    rw [hz1, hk, hlenrec]
    have hc : cntBelow p.answers.length 0
        (p.answers.length + p.authorities.length + p.resources.length)
        = p.answers.length := by
      unfold cntBelow
      omega
    rw [hc, bump_zero_lt _ ha65]
  have hwhb : (writtenHeader p max_size).authoritative_entries = p.authorities.length := by
    show bump p.header.authoritative_entries
        (cntBelow (p.answers.length + p.authorities.length) 0 (acceptCount p max_size)
          - cntBelow p.answers.length 0 (acceptCount p max_size))
        = p.authorities.length
    rw [hz2, hk, hlenrec]
    have hc : cntBelow (p.answers.length + p.authorities.length) 0
          (p.answers.length + p.authorities.length + p.resources.length)
        - cntBelow p.answers.length 0
          (p.answers.length + p.authorities.length + p.resources.length)
        = p.authorities.length := by
      unfold cntBelow
      omega
    rw [hc, bump_zero_lt _ hb65]
  have hwhc : (writtenHeader p max_size).resource_entries = p.resources.length := by
    show bump p.header.resource_entries
        (acceptCount p max_size
          - cntBelow (p.answers.length + p.authorities.length) 0 (acceptCount p max_size))
        = p.resources.length
    rw [hz3, hk, hlenrec]
    have hc : p.answers.length + p.authorities.length + p.resources.length
        - cntBelow (p.answers.length + p.authorities.length) 0
          (p.answers.length + p.authorities.length + p.resources.length)
        = p.resources.length := by
      unfold cntBelow
      omega
    rw [hc, bump_zero_lt _ hc65]
  have hflat : ((packetRecords p).map encRecord).flatten
      = (p.answers.map encRecord).flatten ++ (p.authorities.map encRecord).flatten
        ++ (p.resources.map encRecord).flatten := by
    simp [packetRecords]
  have hd0 : (writeBytesOut p max_size).drop 0
      = encHeader (writtenHeader p max_size)
        ++ ((p.questions.map encQuestion).flatten
            ++ ((packetRecords p).map encRecord).flatten) := by
    rw [List.drop_zero, writeBytesOut, htake, List.append_assoc]
  obtain ⟨h2, e0, eq1, eq2, eq3, eq4⟩ := header_read_counts DnsHeader.new
    (writtenHeader p max_size) (writeBytesOut p max_size) 0 _
    (by rw [hwhq]; exact hq65) (by rw [hwha]; exact ha65)
    (by rw [hwhb]; exact hb65) (by rw [hwhc]; exact hc65) hd0
  have hd1 := drop_of_drop (writeBytesOut p max_size) 0
    (encHeader (writtenHeader p max_size)) _ hd0
  rw [encHeader_len] at hd1
  have e1 := readQuestions_list p.questions hwfq (writeBytesOut p max_size) (0 + 12) _ hd1
  have hd2 := drop_of_drop (writeBytesOut p max_size) (0 + 12)
    ((p.questions.map encQuestion).flatten) _ hd1
  have hd2a : (writeBytesOut p max_size).drop
      (0 + 12 + ((p.questions.map encQuestion).flatten).length)
      = (p.answers.map encRecord).flatten
        ++ ((p.authorities.map encRecord).flatten
            ++ (p.resources.map encRecord).flatten) := by
    rw [hd2, hflat, List.append_assoc]
  have e2 := readRecords_list p.answers
    (fun r hr => hwfr r (by
      unfold packetRecords
      exact List.mem_append_left _ (List.mem_append_left _ hr)))
    (writeBytesOut p max_size)
    (0 + 12 + ((p.questions.map encQuestion).flatten).length) _ hd2a
  have hd3 := drop_of_drop (writeBytesOut p max_size)
    (0 + 12 + ((p.questions.map encQuestion).flatten).length)
    ((p.answers.map encRecord).flatten) _ hd2a
  have e3 := readRecords_list p.authorities
    (fun r hr => hwfr r (by
      unfold packetRecords
      exact List.mem_append_left _ (List.mem_append_right _ hr)))
    (writeBytesOut p max_size)
    (0 + 12 + ((p.questions.map encQuestion).flatten).length
      + ((p.answers.map encRecord).flatten).length) _ hd3
  have hd4 := drop_of_drop (writeBytesOut p max_size)
    (0 + 12 + ((p.questions.map encQuestion).flatten).length
      + ((p.answers.map encRecord).flatten).length)
    ((p.authorities.map encRecord).flatten) _ hd3
  have hd4a : (writeBytesOut p max_size).drop
      (0 + 12 + ((p.questions.map encQuestion).flatten).length
        + ((p.answers.map encRecord).flatten).length
        + ((p.authorities.map encRecord).flatten).length)
      = (p.resources.map encRecord).flatten ++ [] := by
    rw [hd4, List.append_nil]
  have e4 := readRecords_list p.resources
    (fun r hr => hwfr r (by
      unfold packetRecords
      exact List.mem_append_right _ hr))
    (writeBytesOut p max_size)
    (0 + 12 + ((p.questions.map encQuestion).flatten).length
      + ((p.answers.map encRecord).flatten).length
      + ((p.authorities.map encRecord).flatten).length) [] hd4a
  have hbuf : (p.write (aligned []) max_size).2.buffer = writeBytesOut p max_size := by
    rw [dnspacket_write_eq]
    simp [aligned]
  refine ⟨{ header := h2, questions := p.questions, answers := p.answers,
            authorities := p.authorities, resources := p.resources }, ?_, rfl, rfl, rfl, rfl⟩
  rw [hbuf]
  simp only [DnsPacket.from_buffer, bind, Except.bind, e0, eq1, eq2, eq3, eq4,
    hwhq, hwha, hwhb, hwhc, e1, e2, e3, e4, pure, Except.pure]

/-- Witness packet for C1: one question and one record per section. -/
def c1wPacket : DnsPacket :=
  { DnsPacket.new with
    questions := [DnsQuestion.new [103, 111, 111, 103, 108, 101, 46, 99, 111, 109] .A]
    answers := [.A [103, 111, 111, 103, 108, 101, 46, 99, 111, 109] ⟨1, 2, 3, 4⟩ 3600]
    authorities := [.NS [99, 111, 109] [110, 115, 49, 46, 99, 111, 109] 7200]
    resources := [.A [110, 115, 49, 46, 99, 111, 109] ⟨5, 6, 7, 8⟩ 60] }

/-- Witness for C1 on `c1wPacket` at `max_size = 512`. -/
theorem c1_roundtrip_witness :
    ∃ q, DnsPacket.from_buffer ⟨(c1wPacket.write (aligned []) 512).2.buffer, 0⟩
        = Except.ok q
      ∧ q.questions = c1wPacket.questions ∧ q.answers = c1wPacket.answers
      ∧ q.authorities = c1wPacket.authorities ∧ q.resources = c1wPacket.resources :=
  c1_roundtrip c1wPacket 512 (by decide) (by decide) (by decide)

end Hermes
